import Mathlib

/-!
# The structural checksum adapter of osmium (include/osmium/osm/crc.hpp)

A shallow embedding of `osmium::util::byte_swap_16/32/64` and of the class
template `osmium::CRC<TCRC>`, followed by theorems about the byte stream the
adapter hands to its accumulator.

Conventions of the embedding.

* Unsigned machine integers are natural numbers; an operation whose C++ result
  is truncated to a width carries an explicit `% 2 ^ w`.
* Signed and enumeration fields of the records are integers; where the source
  converts one to an unsigned parameter type the embedding applies
  `to_unsigned`.
* A `const char*` is the list of the bytes stored from the pointer onwards.
* The member `m_crc` is passed explicitly: a member function `f(args)` becomes
  a function from the state of `m_crc` before the call to its state after it.
* The preprocessor conditions of the source are fields of `Config`.
-/

namespace osmium

/-! ## What the header takes from its environment -/

/-- Modelled from the spec: `item_type`, the enumeration that tags relation
members and the sub-items of an area, given by its underlying 16-bit value. -/
abbrev item_type := Int

/-- The facts about the build that crc.hpp branches on or refers to without
defining them. -/
structure Config where
  /-- The condition `defined(__GNUC__) || defined(__clang__)`. -/
  gnuc : Bool
  /-- The condition `__BYTE_ORDER == __LITTLE_ENDIAN`. -/
  little_endian : Bool
  /-- Whether plain `char` is a signed type on the target. -/
  char_signed : Bool
  /-- The enumerator `osmium::item_type::outer_ring`. -/
  outer_ring : item_type
  /-- The enumerator `osmium::item_type::inner_ring`. -/
  inner_ring : item_type
deriving DecidableEq

/-- Conversion of an integer value to the unsigned type of the given number of
bits (the value modulo `2 ^ bits`). -/
def to_unsigned (bits : Nat) (x : Int) : Nat :=
  (x % 2 ^ bits).toNat

/-- The `n` low-order bytes of `value`, least significant byte first. -/
def low_bytes_first : Nat → Nat → List Nat
  | 0, _ => []
  | n + 1, value => value % 256 :: low_bytes_first n (value / 256)

/-- The number whose bytes, least significant first, are the given list. -/
def of_low_bytes_first : List Nat → Nat
  | [] => 0
  | b :: bs => b + 256 * of_low_bytes_first bs

/-- Object representation of an `n`-byte unsigned integer in the memory of the
host, at increasing addresses; it is what `process_bytes(&value, n)` reads. -/
def object_representation (little_endian : Bool) (n value : Nat) : List Nat :=
  if little_endian then low_bytes_first n value
  else (low_bytes_first n value).reverse

/-- The compiler builtins `__builtin_bswap16/32/64` as the compiler documents
them: the operand of `n` bytes with the order of its bytes reversed. -/
def builtin_bswap (n value : Nat) : Nat :=
  of_low_bytes_first (low_bytes_first n value).reverse

/-- The value of `*str` for a stored byte `b`: the byte itself where `char` is
unsigned, its two's complement reading where `char` is signed. -/
def read_char (char_signed : Bool) (b : Nat) : Int :=
  if char_signed && decide (128 ≤ b) then (b : Int) - 256 else (b : Int)

/-! ## osmium::util -/

namespace util

/-- Source: `byte_swap_16`. The operands of the portable expression are
promoted, so only the returned value is truncated to 16 bits. -/
def byte_swap_16 (gnuc : Bool) (value : Nat) : Nat :=
  if gnuc then builtin_bswap 2 value
  else ((value >>> 8) ||| (value <<< 8)) % 2 ^ 16

/-- Source: `byte_swap_32`. Every left shift is taken modulo `2 ^ 32`. -/
def byte_swap_32 (gnuc : Bool) (value : Nat) : Nat :=
  if gnuc then builtin_bswap 4 value
  else
    (value >>> 24) |||
    ((value >>> 8) &&& 0x0000FF00) |||
    (((value <<< 8) % 2 ^ 32) &&& 0x00FF0000) |||
    ((value <<< 24) % 2 ^ 32)

/-- Source: `byte_swap_64`. The arguments of `byte_swap_32` are converted to
its 32-bit parameter, the left shift is taken modulo `2 ^ 64`. -/
def byte_swap_64 (gnuc : Bool) (value : Nat) : Nat :=
  if gnuc then builtin_bswap 8 value
  else
    let val1 := byte_swap_32 gnuc ((value &&& 0xFFFFFFFF) % 2 ^ 32)
    let val2 := byte_swap_32 gnuc ((value >>> 32) % 2 ^ 32)
    ((val1 <<< 32) % 2 ^ 64) ||| val2

end util

/-! ## The accumulator -/

/-- The capability the template parameter `TCRC` has to offer: absorbing one
byte, absorbing a block of bytes, and a digest read from the state. -/
structure TCRC (σ δ : Type) where
  process_byte : σ → Nat → σ
  process_bytes : σ → List Nat → σ
  checksum : σ → δ

/-- One call received by an accumulator. -/
inductive Call where
  | process_byte (b : Nat)
  | process_bytes (bs : List Nat)
deriving DecidableEq

/-- The bytes a call carries. -/
def Call.bytes : Call → List Nat
  | .process_byte b => [b]
  | .process_bytes bs => bs

/-- The byte sequence absorbed through a sequence of calls. -/
def absorbed : List Call → List Nat
  | [] => []
  | c :: cs => c.bytes ++ absorbed cs

/-- The accumulator that keeps the calls it receives, in order; its digest is
the byte sequence absorbed. -/
def recorder : TCRC (List Call) (List Nat) where
  process_byte := fun s b => s ++ [Call.process_byte b]
  process_bytes := fun s bs => s ++ [Call.process_bytes bs]
  checksum := absorbed

/-- Feeding a sequence of calls to an accumulator. -/
def replay {σ δ : Type} (A : TCRC σ δ) : σ → List Call → σ
  | s, [] => s
  | s, .process_byte b :: cs => replay A (A.process_byte s b) cs
  | s, .process_bytes bs :: cs => replay A (A.process_bytes s bs) cs

/-! ## The records -/

/-- Modelled from the spec: a string field of a record. The records are not
part of crc.hpp; a string is stored as its content, whose bytes are non-zero,
followed by a terminating zero byte. -/
structure c_string where
  content : List Nat
  valid : ∀ b ∈ content, 0 < b ∧ b < 256

/-- Modelled from the spec: the accessor of a string field (`key()`,
`value()`, `role()`, `user()`), a pointer to the content and its terminator. -/
def c_string.c_str (s : c_string) : List Nat :=
  s.content ++ [0]

/-- Modelled from the spec: `Timestamp`, seconds since the epoch. -/
structure Timestamp where
  seconds_since_epoch : Int
deriving DecidableEq

/-- Modelled from the spec: `Location`, fixed-point coordinates. -/
structure Location where
  x : Int
  y : Int
deriving DecidableEq

/-- Modelled from the spec: `Box`, two locations. -/
structure Box where
  bottom_left : Location
  top_right : Location
deriving DecidableEq

/-- Modelled from the spec: `NodeRef`, the id of a node. -/
structure NodeRef where
  ref : Int
deriving DecidableEq

/-- Modelled from the spec: `NodeRefList`, in list order. -/
abbrev NodeRefList := List NodeRef

/-- Modelled from the spec: `Tag`, a key and a value. -/
structure Tag where
  key : c_string
  value : c_string

/-- Modelled from the spec: `TagList`, in list order. -/
abbrev TagList := List Tag

/-- Modelled from the spec: `RelationMember`. -/
structure RelationMember where
  ref : Int
  type : item_type
  role : c_string

/-- Modelled from the spec: `RelationMemberList`, in list order. -/
abbrev RelationMemberList := List RelationMember

/-- Modelled from the spec: `OSMObject`, the fields shared by node, way,
relation and area. -/
structure OSMObject where
  id : Int
  visible : Bool
  version : Int
  timestamp : Timestamp
  uid : Int
  user : c_string
  tags : TagList

/-- Modelled from the spec: `Node`, an object with a location. -/
structure Node extends OSMObject where
  location : Location

/-- Modelled from the spec: `Way`, an object with a list of node references. -/
structure Way extends OSMObject where
  nodes : NodeRefList

/-- Modelled from the spec: `Relation`, an object with a list of members. -/
structure Relation extends OSMObject where
  members : RelationMemberList

/-- Modelled from the spec: a sub-item of an area as the iteration from
`cbegin()` to `cend()` yields it, a type and the node references it holds. -/
structure SubItem where
  type : item_type
  nodes : NodeRefList
deriving DecidableEq

/-- Modelled from the spec: `Area`, an object with its sub-items in storage
order. -/
structure Area extends OSMObject where
  items : List SubItem

/-- Modelled from the spec: `Changeset`. -/
structure Changeset where
  id : Int
  created_at : Timestamp
  closed_at : Timestamp
  bounds : Box
  num_changes : Int
  uid : Int
  user : c_string
  tags : TagList

/-! ## osmium::CRC -/

namespace CRC

variable {σ δ : Type}

/-- Source: `update_bool`. The argument of `process_byte` is the flag
converted to a byte. -/
def update_bool (A : TCRC σ δ) (m_crc : σ) (value : Bool) : σ :=
  A.process_byte m_crc (if value then 1 else 0)

/-- Source: `update_int8`. -/
def update_int8 (A : TCRC σ δ) (m_crc : σ) (value : Nat) : σ :=
  A.process_byte m_crc value

/-- Source: `update_int16`, both branches of the byte order condition. -/
def update_int16 (C : Config) (A : TCRC σ δ) (m_crc : σ) (value : Nat) : σ :=
  if C.little_endian then
    A.process_bytes m_crc (object_representation C.little_endian 2 value)
  else
    let v := util.byte_swap_16 C.gnuc value
    A.process_bytes m_crc (object_representation C.little_endian 2 v)

/-- Source: `update_int32`, both branches of the byte order condition. -/
def update_int32 (C : Config) (A : TCRC σ δ) (m_crc : σ) (value : Nat) : σ :=
  if C.little_endian then
    A.process_bytes m_crc (object_representation C.little_endian 4 value)
  else
    let v := util.byte_swap_32 C.gnuc value
    A.process_bytes m_crc (object_representation C.little_endian 4 v)

/-- Source: `update_int64`, both branches of the byte order condition. -/
def update_int64 (C : Config) (A : TCRC σ δ) (m_crc : σ) (value : Nat) : σ :=
  if C.little_endian then
    A.process_bytes m_crc (object_representation C.little_endian 8 value)
  else
    let v := util.byte_swap_64 C.gnuc value
    A.process_bytes m_crc (object_representation C.little_endian 8 v)

/-- Source: `update_string`. The argument is the memory from `str` onwards;
the loop stops at the first zero byte, and reading past the last stored byte
has no defined result (`none`). The argument of `process_byte` is the
character converted to a byte. -/
def update_string (C : Config) (A : TCRC σ δ) (m_crc : σ) : List Nat → Option σ
  | [] => none
  | b :: str =>
    if read_char C.char_signed b ≠ 0 then
      update_string C A (A.process_byte m_crc (to_unsigned 8 (read_char C.char_signed b))) str
    else
      some m_crc

/-- Source: `update(const Timestamp&)`. -/
def update_Timestamp (C : Config) (A : TCRC σ δ) (m_crc : σ) (timestamp : Timestamp) : σ :=
  update_int32 C A m_crc (to_unsigned 32 timestamp.seconds_since_epoch)

/-- Source: `update(const osmium::Location&)`. -/
def update_Location (C : Config) (A : TCRC σ δ) (m_crc : σ) (location : Location) : σ :=
  let m_crc := update_int32 C A m_crc (to_unsigned 32 location.x)
  update_int32 C A m_crc (to_unsigned 32 location.y)

/-- Source: `update(const osmium::Box&)`. -/
def update_Box (C : Config) (A : TCRC σ δ) (m_crc : σ) (box : Box) : σ :=
  let m_crc := update_Location C A m_crc box.bottom_left
  update_Location C A m_crc box.top_right

/-- Source: `update(const NodeRef&)`. -/
def update_NodeRef (C : Config) (A : TCRC σ δ) (m_crc : σ) (node_ref : NodeRef) : σ :=
  update_int64 C A m_crc (to_unsigned 64 node_ref.ref)

/-- Source: `update(const NodeRefList&)`. -/
def update_NodeRefList (C : Config) (A : TCRC σ δ) (m_crc : σ) : NodeRefList → σ
  | [] => m_crc
  | node_ref :: node_refs =>
    update_NodeRefList C A (update_NodeRef C A m_crc node_ref) node_refs

/-- Source: `update(const TagList&)`. -/
def update_TagList (C : Config) (A : TCRC σ δ) (m_crc : σ) : TagList → Option σ
  | [] => some m_crc
  | tag :: tags => do
    let m_crc ← update_string C A m_crc tag.key.c_str
    let m_crc ← update_string C A m_crc tag.value.c_str
    update_TagList C A m_crc tags

/-- Source: `update(const osmium::RelationMember&)`. -/
def update_RelationMember (C : Config) (A : TCRC σ δ) (m_crc : σ)
    (member : RelationMember) : Option σ :=
  let m_crc := update_int64 C A m_crc (to_unsigned 64 member.ref)
  let m_crc := update_int16 C A m_crc (to_unsigned 16 member.type)
  update_string C A m_crc member.role.c_str

/-- Source: `update(const osmium::RelationMemberList&)`. -/
def update_RelationMemberList (C : Config) (A : TCRC σ δ) (m_crc : σ) :
    RelationMemberList → Option σ
  | [] => some m_crc
  | member :: members => do
    let m_crc ← update_RelationMember C A m_crc member
    update_RelationMemberList C A m_crc members

/-- Source: `update(const osmium::OSMObject&)`. -/
def update_OSMObject (C : Config) (A : TCRC σ δ) (m_crc : σ) (object : OSMObject) :
    Option σ :=
  let m_crc := update_int64 C A m_crc (to_unsigned 64 object.id)
  let m_crc := update_bool A m_crc object.visible
  let m_crc := update_int32 C A m_crc (to_unsigned 32 object.version)
  let m_crc := update_Timestamp C A m_crc object.timestamp
  let m_crc := update_int32 C A m_crc (to_unsigned 32 object.uid)
  do
    let m_crc ← update_string C A m_crc object.user.c_str
    update_TagList C A m_crc object.tags

/-- Source: `update(const osmium::Node&)`. -/
def update_Node (C : Config) (A : TCRC σ δ) (m_crc : σ) (node : Node) : Option σ := do
  let m_crc ← update_OSMObject C A m_crc node.toOSMObject
  pure (update_Location C A m_crc node.location)

/-- Source: `update(const osmium::Way&)`. -/
def update_Way (C : Config) (A : TCRC σ δ) (m_crc : σ) (way : Way) : Option σ := do
  let m_crc ← update_OSMObject C A m_crc way.toOSMObject
  pure (update_NodeRefList C A m_crc way.nodes)

/-- Source: `update(const osmium::Relation&)`. -/
def update_Relation (C : Config) (A : TCRC σ δ) (m_crc : σ) (relation : Relation) :
    Option σ := do
  let m_crc ← update_OSMObject C A m_crc relation.toOSMObject
  update_RelationMemberList C A m_crc relation.members

/-- The loop of `update(const osmium::Area&)` over the sub-items from
`cbegin()` to `cend()`. -/
def update_Area_items (C : Config) (A : TCRC σ δ) (m_crc : σ) : List SubItem → σ
  | [] => m_crc
  | it :: rest =>
    if it.type = C.outer_ring ∨ it.type = C.inner_ring then
      update_Area_items C A (update_NodeRefList C A m_crc it.nodes) rest
    else
      update_Area_items C A m_crc rest

/-- Source: `update(const osmium::Area&)`. -/
def update_Area (C : Config) (A : TCRC σ δ) (m_crc : σ) (area : Area) : Option σ := do
  let m_crc ← update_OSMObject C A m_crc area.toOSMObject
  pure (update_Area_items C A m_crc area.items)

/-- Source: `update(const osmium::Changeset&)`. -/
def update_Changeset (C : Config) (A : TCRC σ δ) (m_crc : σ) (changeset : Changeset) :
    Option σ :=
  let m_crc := update_int64 C A m_crc (to_unsigned 64 changeset.id)
  let m_crc := update_Timestamp C A m_crc changeset.created_at
  let m_crc := update_Timestamp C A m_crc changeset.closed_at
  let m_crc := update_Box C A m_crc changeset.bounds
  let m_crc := update_int32 C A m_crc (to_unsigned 32 changeset.num_changes)
  let m_crc := update_int32 C A m_crc (to_unsigned 32 changeset.uid)
  do
    let m_crc ← update_string C A m_crc changeset.user.c_str
    update_TagList C A m_crc changeset.tags

end CRC

/-! ## The byte streams of the specification -/

namespace spec

/-- Spec: the little-endian representation of `v` on `n` bytes, byte `i`
being `(v / 256 ^ i) mod 256`. -/
def LE (n v : Nat) : List Nat :=
  (List.range n).map fun i => v / 256 ^ i % 256

/-- Spec: `LE16`, the two little-endian bytes of a 16-bit field. -/
def LE16 (x : Int) : List Nat :=
  LE 2 (to_unsigned 16 x)

/-- Spec: `LE32`, the four little-endian bytes of a 32-bit field. -/
def LE32 (x : Int) : List Nat :=
  LE 4 (to_unsigned 32 x)

/-- Spec: `LE64`, the eight little-endian bytes of a 64-bit field. -/
def LE64 (x : Int) : List Nat :=
  LE 8 (to_unsigned 64 x)

/-- Spec: the bytes of a tag list, per tag in order the key then the value. -/
def tag_bytes (tags : TagList) : List Nat :=
  tags.flatMap fun t => t.key.content ++ t.value.content

/-- Spec: the bytes of a node reference list, `LE64` of each reference in
list order. -/
def node_ref_bytes (nodes : NodeRefList) : List Nat :=
  nodes.flatMap fun r => LE64 r.ref

/-- Spec: the row "Object prefix" of the table of encoded fields: id, visible,
version, timestamp, uid, user, tags. -/
def object_bytes (o : OSMObject) : List Nat :=
  LE64 o.id ++ [if o.visible then 1 else 0] ++ LE32 o.version
    ++ LE32 o.timestamp.seconds_since_epoch ++ LE32 o.uid ++ o.user.content
    ++ tag_bytes o.tags

end spec

/-- The result of an operation run on the recorder from the state `s` is a
state, and the bytes absorbed up to it are those of `s` followed by `e`. -/
def appends (r : Option (List Call)) (s : List Call) (e : List Nat) : Prop :=
  ∃ t, r = some t ∧ absorbed t = absorbed s ++ e

/-! ## Records of the scenarios -/

/-- The empty string. -/
def c_string.empty : c_string :=
  ⟨[], by decide⟩

/-- A configuration of a little-endian host compiled with GCC. -/
def Config.gcc_little : Config :=
  ⟨true, true, true, 0x40, 0x41⟩

/-- A configuration of a big-endian host compiled without the builtins. -/
def Config.portable_big : Config :=
  ⟨false, false, false, 0x40, 0x41⟩

/-- Scenario A of the specification. -/
def scenario_A : Node :=
  { id := 1, visible := true, version := 1, timestamp := ⟨0⟩, uid := 0,
    user := c_string.empty, tags := [], location := ⟨10, 20⟩ }

/-- An area with the fields of scenario A and one outer ring of three node
references, for scenario D. -/
def scenario_D (C : Config) : Area :=
  { id := 1, visible := true, version := 1, timestamp := ⟨0⟩, uid := 0,
    user := c_string.empty, tags := [],
    items := [⟨C.outer_ring, [⟨101⟩, ⟨102⟩, ⟨103⟩]⟩] }

/-- A sub-item that is no ring: its type is that of neither ring kind of
`Config.gcc_little`. -/
def other_item : SubItem :=
  ⟨0x11, [⟨7⟩, ⟨8⟩]⟩

/-- The node of scenario B: scenario A with the timestamp 100. -/
def scenario_B : Node :=
  { scenario_A with timestamp := ⟨100⟩ }

/-- The string "a". -/
def c_string.a : c_string :=
  ⟨[0x61], by decide⟩

/-- The string "b". -/
def c_string.b : c_string :=
  ⟨[0x62], by decide⟩

/-- The string "ab". -/
def c_string.ab : c_string :=
  ⟨[0x61, 0x62], by decide⟩

/-- The node of scenario C: scenario A with the tag ("a", "b"). -/
def scenario_C : Node :=
  { scenario_A with tags := [⟨c_string.a, c_string.b⟩] }

/-- Scenario A with the tag ("ab", ""). -/
def scenario_C_merged : Node :=
  { scenario_A with tags := [⟨c_string.ab, c_string.empty⟩] }

/-- Scenario A with the tag ("", ""). -/
def scenario_A_empty_tag : Node :=
  { scenario_A with tags := [⟨c_string.empty, c_string.empty⟩] }

/-! ## Ranges of the integer fields and accumulators that tell streams apart -/

/-- The integer `x` is a value of the signed type of `w` bits. -/
def fits_signed (w : Nat) (x : Int) : Prop :=
  -2 ^ (w - 1) ≤ x ∧ x < 2 ^ (w - 1)

/-- The integer `x` is a value of the unsigned type of `w` bits. -/
def fits_unsigned (w : Nat) (x : Int) : Prop :=
  0 ≤ x ∧ x < 2 ^ w

/-- Both integers are values of one integer type of `w` bits, the signed or
the unsigned one. -/
def fits_together (w : Nat) (x y : Int) : Prop :=
  (fits_signed w x ∧ fits_signed w y) ∨ (fits_unsigned w x ∧ fits_unsigned w y)

/-- The accumulator `A`, started in the state `init`, distinguishes distinct
byte sequences: equal digests after two sequences of calls are only obtained
from equal sequences of absorbed bytes. -/
def distinguishes {σ δ : Type} (A : TCRC σ δ) (init : σ) : Prop :=
  ∀ c1 c2 : List Call,
    A.checksum (replay A init c1) = A.checksum (replay A init c2) → absorbed c1 = absorbed c2

/-- The operation `f` of the adapter never fails, and its whole effect on any
accumulator in any state is to feed it one sequence of calls, which does not
depend on the accumulator or on its state. -/
def feeds (f : (σ δ : Type) → TCRC σ δ → σ → Option σ) : Prop :=
  ∃ calls : List Call, ∀ (σ δ : Type) (A : TCRC σ δ) (s : σ),
    f σ δ A s = some (replay A s calls)

namespace spec

/-- Spec: the row "Node" of the table of encoded fields: the object fields,
then the location. -/
def node_bytes (n : Node) : List Nat :=
  object_bytes n.toOSMObject ++ (LE32 n.location.x ++ LE32 n.location.y)

/-- Spec: the row "Way" of the table of encoded fields: the object fields,
then the node references. -/
def way_bytes (w : Way) : List Nat :=
  object_bytes w.toOSMObject ++ node_ref_bytes w.nodes

end spec

/-! ## Bytes of a number and the byte swaps -/

theorem low_bytes_first_eq_LE (n v : Nat) : low_bytes_first n v = spec.LE n v := by
  induction n generalizing v with
  | zero => rfl
  | succ n ih =>
    rw [low_bytes_first, ih, spec.LE, spec.LE, List.range_succ_eq_map, List.map_cons,
      List.map_map]
    refine congrArg₂ _ (by simp) (List.map_congr_left fun i _ => ?_)
    simp [Function.comp, pow_succ, Nat.div_div_eq_div_mul, Nat.mul_comm]

theorem length_LE (n v : Nat) : (spec.LE n v).length = n := by
  simp [spec.LE]

theorem length_low_bytes_first (n v : Nat) : (low_bytes_first n v).length = n := by
  rw [low_bytes_first_eq_LE, length_LE]

theorem low_bytes_first_lt (n v : Nat) : ∀ b ∈ low_bytes_first n v, b < 256 := by
  induction n generalizing v with
  | zero => simp [low_bytes_first]
  | succ n ih =>
    intro b hb
    rw [low_bytes_first, List.mem_cons] at hb
    rcases hb with rfl | hb
    · exact Nat.mod_lt _ (by decide)
    · exact ih _ b hb

theorem low_bytes_first_of (bs : List Nat) (h : ∀ b ∈ bs, b < 256) :
    low_bytes_first bs.length (of_low_bytes_first bs) = bs := by
  induction bs with
  | nil => rfl
  | cons b bs ih =>
    have hb : b < 256 := h b (List.mem_cons_self _ _)
    have e1 : (b + 256 * of_low_bytes_first bs) % 256 = b := by omega
    have e2 : (b + 256 * of_low_bytes_first bs) / 256 = of_low_bytes_first bs := by omega
    rw [List.length_cons, of_low_bytes_first, low_bytes_first, e1, e2,
      ih fun c hc => h c (List.mem_cons_of_mem _ hc)]

theorem of_low_bytes_first_lt (bs : List Nat) (h : ∀ b ∈ bs, b < 256) :
    of_low_bytes_first bs < 256 ^ bs.length := by
  induction bs with
  | nil => simp [of_low_bytes_first]
  | cons b bs ih =>
    have hb : b < 256 := h b (List.mem_cons_self _ _)
    have := ih fun c hc => h c (List.mem_cons_of_mem _ hc)
    rw [of_low_bytes_first, List.length_cons, pow_succ]
    omega

theorem of_low_bytes_first_append (as bs : List Nat) :
    of_low_bytes_first (as ++ bs)
      = of_low_bytes_first as + 256 ^ as.length * of_low_bytes_first bs := by
  induction as with
  | nil => simp [of_low_bytes_first]
  | cons a as ih =>
    rw [List.cons_append, of_low_bytes_first, ih, of_low_bytes_first, List.length_cons,
      pow_succ]
    ring

theorem of_low_bytes_first_low (n v : Nat) :
    of_low_bytes_first (low_bytes_first n v) = v % 256 ^ n := by
  induction n generalizing v with
  | zero => simp [low_bytes_first, of_low_bytes_first, Nat.mod_one]
  | succ n ih =>
    rw [low_bytes_first, of_low_bytes_first, ih, pow_succ, Nat.mul_comm (256 ^ n) 256,
      Nat.mod_mul, Nat.add_comm]

theorem low_bytes_first_mod (n v : Nat) :
    low_bytes_first n (v % 256 ^ n) = low_bytes_first n v := by
  have h := low_bytes_first_of (low_bytes_first n v) (low_bytes_first_lt n v)
  rwa [length_low_bytes_first, of_low_bytes_first_low] at h

theorem low_bytes_first_add (m n v : Nat) :
    low_bytes_first (m + n) v = low_bytes_first m v ++ low_bytes_first n (v / 256 ^ m) := by
  induction m generalizing v with
  | zero => simp [low_bytes_first]
  | succ m ih =>
    rw [Nat.add_right_comm, low_bytes_first, low_bytes_first, ih, List.cons_append,
      Nat.div_div_eq_div_mul, pow_succ, Nat.mul_comm 256]

theorem builtin_bswap_lt (n v : Nat) : builtin_bswap n v < 256 ^ n := by
  have h := of_low_bytes_first_lt (low_bytes_first n v).reverse
    (fun b hb => low_bytes_first_lt n v b (List.mem_reverse.mp hb))
  rwa [List.length_reverse, length_low_bytes_first] at h

theorem low_bytes_first_builtin_bswap (n v : Nat) :
    low_bytes_first n (builtin_bswap n v) = (low_bytes_first n v).reverse := by
  have h := low_bytes_first_of (low_bytes_first n v).reverse
    (fun b hb => low_bytes_first_lt n v b (List.mem_reverse.mp hb))
  rwa [List.length_reverse, length_low_bytes_first] at h

theorem builtin_bswap_add (m n v : Nat) :
    builtin_bswap (m + n) v
      = 256 ^ n * builtin_bswap m (v % 256 ^ m) + builtin_bswap n (v / 256 ^ m) := by
  unfold builtin_bswap
  rw [low_bytes_first_add, List.reverse_append, of_low_bytes_first_append,
    List.length_reverse, length_low_bytes_first, low_bytes_first_mod, Nat.add_comm]

theorem and_shifted_mask (x k n : Nat) :
    x &&& ((2 ^ n - 1) <<< k) = ((x >>> k) % 2 ^ n) <<< k := by
  apply Nat.eq_of_testBit_eq
  intro j
  simp only [Nat.testBit_and, Nat.testBit_shiftLeft, Nat.testBit_two_pow_sub_one,
    Nat.testBit_mod_two_pow, Nat.testBit_shiftRight]
  by_cases h : k ≤ j
  · simp [h, Nat.add_sub_cancel' h, Bool.and_comm]
  · simp [h]

theorem or_of_low (i a b : Nat) (hb : b < 2 ^ i) : b ||| 2 ^ i * a = 2 ^ i * a + b := by
  rw [Nat.or_comm, Nat.mul_add_lt_is_or hb]

theorem builtin_bswap_two (v : Nat) :
    builtin_bswap 2 v = 2 ^ 8 * (v % 256) + v / 256 % 256 := by
  simp only [builtin_bswap, low_bytes_first, List.reverse_cons, List.reverse_nil,
    List.nil_append, List.cons_append, of_low_bytes_first]
  omega

theorem builtin_bswap_four (v : Nat) :
    builtin_bswap 4 v
      = 2 ^ 24 * (v % 256) + 2 ^ 16 * (v / 256 % 256) + 2 ^ 8 * (v / 65536 % 256)
        + v / 2 ^ 24 % 256 := by
  simp only [builtin_bswap, low_bytes_first, List.reverse_cons, List.reverse_nil,
    List.nil_append, List.cons_append, of_low_bytes_first, Nat.div_div_eq_div_mul,
    Nat.reduceMul, Nat.reducePow]
  omega

theorem byte_swap_16_eq_builtin (g : Bool) (v : Nat) (h : v < 2 ^ 16) :
    util.byte_swap_16 g v = builtin_bswap 2 v := by
  cases g
  · simp only [util.byte_swap_16, Bool.false_eq_true, if_false, Nat.shiftLeft_eq,
      Nat.shiftRight_eq_div_pow, builtin_bswap_two]
    have t : v * 2 ^ 8 = 2 ^ 8 * v := by omega
    have u : 2 ^ 8 * v + v / 2 ^ 8 = 2 ^ 16 * (v / 256) + (2 ^ 8 * (v % 256) + v / 256) := by
      omega
    rw [t, or_of_low 8 _ _ (by omega), u, Nat.mul_add_mod, Nat.mod_eq_of_lt (by omega)]
    omega
  · simp [util.byte_swap_16]

theorem byte_swap_32_eq_builtin (g : Bool) (v : Nat) (h : v < 2 ^ 32) :
    util.byte_swap_32 g v = builtin_bswap 4 v := by
  cases g
  · simp only [util.byte_swap_32, Bool.false_eq_true, if_false, builtin_bswap_four]
    have e1 : (0x0000FF00 : Nat) = (2 ^ 8 - 1) <<< 8 := by decide
    have e2 : (0x00FF0000 : Nat) = (2 ^ 8 - 1) <<< 16 := by decide
    rw [e1, e2, and_shifted_mask, and_shifted_mask]
    simp only [Nat.shiftLeft_eq, Nat.shiftRight_eq_div_pow]
    have t2 : v / 2 ^ 8 / 2 ^ 8 % 2 ^ 8 * 2 ^ 8 = 2 ^ 8 * (v / 65536 % 256) := by omega
    have t3 : v * 2 ^ 8 % 2 ^ 32 / 2 ^ 16 % 2 ^ 8 * 2 ^ 16 = 2 ^ 16 * (v / 256 % 256) := by
      omega
    have t4 : v * 2 ^ 24 % 2 ^ 32 = 2 ^ 24 * (v % 256) := by omega
    rw [t2, t3, t4, or_of_low 8 _ _ (by omega), or_of_low 16 _ _ (by omega),
      or_of_low 24 _ _ (by omega)]
    omega
  · simp [util.byte_swap_32]

theorem byte_swap_64_eq_builtin (g : Bool) (v : Nat) (h : v < 2 ^ 64) :
    util.byte_swap_64 g v = builtin_bswap 8 v := by
  cases g
  · simp only [util.byte_swap_64, Bool.false_eq_true, if_false]
    have e : (0xFFFFFFFF : Nat) = 2 ^ 32 - 1 := by decide
    have p : (2 : Nat) ^ 32 = 256 ^ 4 := by decide
    rw [e, Nat.and_pow_two_sub_one_eq_mod, Nat.mod_mod,
      byte_swap_32_eq_builtin false _ (Nat.mod_lt _ (by decide)),
      byte_swap_32_eq_builtin false _ (Nat.mod_lt _ (by decide)),
      builtin_bswap_add 4 4 v, Nat.shiftLeft_eq, Nat.shiftRight_eq_div_pow, ← p]
    have hhi : v / 2 ^ 32 % 2 ^ 32 = v / 2 ^ 32 := by omega
    have h1 := builtin_bswap_lt 4 (v % 2 ^ 32)
    have h2 := builtin_bswap_lt 4 (v / 2 ^ 32)
    rw [← p] at h1 h2
    rw [hhi]
    generalize builtin_bswap 4 (v % 2 ^ 32) = a at h1 ⊢
    generalize builtin_bswap 4 (v / 2 ^ 32) = b at h2 ⊢
    have t : a * 2 ^ 32 % 2 ^ 64 = 2 ^ 32 * a := by omega
    rw [t, Nat.or_comm, or_of_low 32 _ _ h2]
  · simp [util.byte_swap_64]

/-! ## The field encoders -/

theorem absorbed_append (s t : List Call) : absorbed (s ++ t) = absorbed s ++ absorbed t := by
  induction s with
  | nil => rfl
  | cons c s ih => simp [absorbed, ih]

theorem absorbed_map_process_byte (bs : List Nat) :
    absorbed (bs.map Call.process_byte) = bs := by
  induction bs with
  | nil => rfl
  | cons b bs ih => simp [absorbed, Call.bytes, ih]

theorem to_unsigned_lt (n : Nat) (x : Int) : to_unsigned n x < 2 ^ n := by
  have hpos : (0 : Int) < 2 ^ n := by positivity
  have h1 := Int.emod_lt_of_pos x hpos
  have h2 := Int.emod_nonneg x (ne_of_gt hpos)
  unfold to_unsigned
  zify
  rw [Int.toNat_of_nonneg h2]
  exact_mod_cast h1

theorem object_representation_byte_swap (le : Bool) (n v : Nat) :
    object_representation le n (if le then v else builtin_bswap n v) = spec.LE n v := by
  cases le
  · simp only [object_representation, Bool.false_eq_true, if_false]
    rw [low_bytes_first_builtin_bswap, List.reverse_reverse, low_bytes_first_eq_LE]
  · simp [object_representation, low_bytes_first_eq_LE]

theorem update_int16_eq {σ δ : Type} (C : Config) (A : TCRC σ δ) (m_crc : σ) (v : Nat)
    (h : v < 2 ^ 16) : CRC.update_int16 C A m_crc v = A.process_bytes m_crc (spec.LE 2 v) := by
  have := object_representation_byte_swap C.little_endian 2 v
  unfold CRC.update_int16
  cases hle : C.little_endian <;> simp_all [byte_swap_16_eq_builtin]

theorem update_int32_eq {σ δ : Type} (C : Config) (A : TCRC σ δ) (m_crc : σ) (v : Nat)
    (h : v < 2 ^ 32) : CRC.update_int32 C A m_crc v = A.process_bytes m_crc (spec.LE 4 v) := by
  have := object_representation_byte_swap C.little_endian 4 v
  unfold CRC.update_int32
  cases hle : C.little_endian <;> simp_all [byte_swap_32_eq_builtin]

theorem update_int64_eq {σ δ : Type} (C : Config) (A : TCRC σ δ) (m_crc : σ) (v : Nat)
    (h : v < 2 ^ 64) : CRC.update_int64 C A m_crc v = A.process_bytes m_crc (spec.LE 8 v) := by
  have := object_representation_byte_swap C.little_endian 8 v
  unfold CRC.update_int64
  cases hle : C.little_endian <;> simp_all [byte_swap_64_eq_builtin]

theorem read_char_zero (cs : Bool) : read_char cs 0 = 0 := by
  cases cs <;> simp [read_char]

theorem read_char_ne_zero (cs : Bool) (b : Nat) (h : 0 < b ∧ b < 256) :
    read_char cs b ≠ 0 := by
  unfold read_char
  split <;> omega

theorem to_unsigned_read_char (cs : Bool) (b : Nat) (h : b < 256) :
    to_unsigned 8 (read_char cs b) = b := by
  unfold read_char to_unsigned
  split <;> omega

theorem update_string_fold {σ δ : Type} (C : Config) (A : TCRC σ δ) (m_crc : σ)
    (s rest : List Nat) (h : ∀ b ∈ s, 0 < b ∧ b < 256) :
    CRC.update_string C A m_crc (s ++ 0 :: rest) = some (s.foldl A.process_byte m_crc) := by
  induction s generalizing m_crc with
  | nil => simp [CRC.update_string, read_char_zero]
  | cons b s ih =>
    have hb := h b (List.mem_cons_self _ _)
    rw [List.cons_append, CRC.update_string, if_pos (read_char_ne_zero _ b hb),
      to_unsigned_read_char _ b hb.2, ih _ fun c hc => h c (List.mem_cons_of_mem _ hc)]
    rfl

theorem foldl_recorder (trace : List Call) (s : List Nat) :
    s.foldl recorder.process_byte trace = trace ++ s.map Call.process_byte := by
  induction s generalizing trace with
  | nil => simp
  | cons b s ih =>
    rw [List.foldl_cons, ih]
    simp [recorder]

/-- C9: for every 32-bit value v the shift-and-mask definition of byte_swap_32
stays below 2^32, its byte i is byte 3 - i of v for i = 0..3, and it returns
what the builtin is defined to return; byte_swap_32(0x11223344) is
0x44332211. -/
theorem byte_swap_32_reverses_bytes (v : Nat) (h : v < 2 ^ 32) :
    util.byte_swap_32 false v < 2 ^ 32 ∧
    (∀ i, i < 4 → util.byte_swap_32 false v / 256 ^ i % 256 = v / 256 ^ (3 - i) % 256) ∧
    util.byte_swap_32 false v = builtin_bswap 4 v ∧
    util.byte_swap_32 false 0x11223344 = 0x44332211 := by
  have e := byte_swap_32_eq_builtin false v h
  refine ⟨?_, ?_, e, by decide⟩
  · rw [e]; exact builtin_bswap_lt 4 v
  · intro i hi
    have hl := low_bytes_first_builtin_bswap 4 v
    rw [low_bytes_first_eq_LE, low_bytes_first_eq_LE, ← e] at hl
    have hg := congrArg (fun l => l[i]?) hl
    simp only [spec.LE, List.getElem?_reverse, List.getElem?_map, List.length_map,
      List.length_range, hi] at hg
    rw [List.getElem?_range hi, List.getElem?_range (by omega)] at hg
    simpa using hg

/-- Witness of C9 at v = 0x11223344. -/
theorem byte_swap_32_reverses_bytes_witness :
    util.byte_swap_32 false 0x11223344 < 2 ^ 32 ∧
    (∀ i, i < 4 → util.byte_swap_32 false 0x11223344 / 256 ^ i % 256
      = 0x11223344 / 256 ^ (3 - i) % 256) ∧
    util.byte_swap_32 false 0x11223344 = builtin_bswap 4 0x11223344 ∧
    util.byte_swap_32 false 0x11223344 = 0x44332211 :=
  byte_swap_32_reverses_bytes 0x11223344 (by decide)

/-- C10: for every 64-bit value v the portable definition of byte_swap_64,
built from byte_swap_32 of the two halves, stays below 2^64 and its byte i is
byte 7 - i of v for i = 0..7; byte_swap_64(0x0102030405060708) is
0x0807060504030201. -/
theorem byte_swap_64_reverses_bytes (v : Nat) (h : v < 2 ^ 64) :
    util.byte_swap_64 false v < 2 ^ 64 ∧
    (∀ i, i < 8 → util.byte_swap_64 false v / 256 ^ i % 256 = v / 256 ^ (7 - i) % 256) ∧
    util.byte_swap_64 false v
      = ((util.byte_swap_32 false (v % 2 ^ 32) <<< 32) % 2 ^ 64)
        ||| util.byte_swap_32 false (v / 2 ^ 32) ∧
    util.byte_swap_64 false 0x0102030405060708 = 0x0807060504030201 := by
  have e := byte_swap_64_eq_builtin false v h
  refine ⟨?_, ?_, ?_, by decide⟩
  · rw [e]; exact builtin_bswap_lt 8 v
  · intro i hi
    have hl := low_bytes_first_builtin_bswap 8 v
    rw [low_bytes_first_eq_LE, low_bytes_first_eq_LE, ← e] at hl
    have hg := congrArg (fun l => l[i]?) hl
    simp only [spec.LE, List.getElem?_reverse, List.getElem?_map, List.length_map,
      List.length_range, hi] at hg
    rw [List.getElem?_range hi, List.getElem?_range (by omega)] at hg
    simpa using hg
  · have m : (0xFFFFFFFF : Nat) = 2 ^ 32 - 1 := by decide
    have hhi : v / 2 ^ 32 % 2 ^ 32 = v / 2 ^ 32 := by omega
    simp only [util.byte_swap_64, Bool.false_eq_true, if_false, m,
      Nat.and_pow_two_sub_one_eq_mod, Nat.mod_mod, Nat.shiftRight_eq_div_pow, hhi]

/-- Witness of C10 at v = 0x0102030405060708. -/
theorem byte_swap_64_reverses_bytes_witness :
    util.byte_swap_64 false 0x0102030405060708 < 2 ^ 64 ∧
    (∀ i, i < 8 → util.byte_swap_64 false 0x0102030405060708 / 256 ^ i % 256
      = 0x0102030405060708 / 256 ^ (7 - i) % 256) ∧
    util.byte_swap_64 false 0x0102030405060708
      = ((util.byte_swap_32 false (0x0102030405060708 % 2 ^ 32) <<< 32) % 2 ^ 64)
        ||| util.byte_swap_32 false (0x0102030405060708 / 2 ^ 32) ∧
    util.byte_swap_64 false 0x0102030405060708 = 0x0807060504030201 :=
  byte_swap_64_reverses_bytes 0x0102030405060708 (by decide)

/-- C1: for v below 2^16, 2^32, 2^64, update_int16/32/64 makes one
process_bytes call carrying the 2, 4, 8 bytes (v / 256^i) mod 256, i from 0
upwards, whatever the byte order of the host and the definition of the byte
swap; hence from equal states any two configurations, the little-endian and
the big-endian path among them, leave any accumulator in equal states. -/
theorem update_int_absorbs_little_endian {σ δ : Type} (C D : Config) (A : TCRC σ δ)
    (m_crc : σ) (trace : List Call) (v16 v32 v64 : Nat)
    (h16 : v16 < 2 ^ 16) (h32 : v32 < 2 ^ 32) (h64 : v64 < 2 ^ 64) :
    (CRC.update_int16 C recorder trace v16
        = trace ++ [Call.process_bytes ((List.range 2).map fun i => v16 / 256 ^ i % 256)] ∧
      CRC.update_int16 C A m_crc v16 = CRC.update_int16 D A m_crc v16) ∧
    (CRC.update_int32 C recorder trace v32
        = trace ++ [Call.process_bytes ((List.range 4).map fun i => v32 / 256 ^ i % 256)] ∧
      CRC.update_int32 C A m_crc v32 = CRC.update_int32 D A m_crc v32) ∧
    (CRC.update_int64 C recorder trace v64
        = trace ++ [Call.process_bytes ((List.range 8).map fun i => v64 / 256 ^ i % 256)] ∧
      CRC.update_int64 C A m_crc v64 = CRC.update_int64 D A m_crc v64) := by
  refine ⟨⟨?_, ?_⟩, ⟨?_, ?_⟩, ⟨?_, ?_⟩⟩
  · rw [update_int16_eq C recorder trace v16 h16]; rfl
  · rw [update_int16_eq C A m_crc v16 h16, update_int16_eq D A m_crc v16 h16]
  · rw [update_int32_eq C recorder trace v32 h32]; rfl
  · rw [update_int32_eq C A m_crc v32 h32, update_int32_eq D A m_crc v32 h32]
  · rw [update_int64_eq C recorder trace v64 h64]; rfl
  · rw [update_int64_eq C A m_crc v64 h64, update_int64_eq D A m_crc v64 h64]

/-- Witness of C1: the values 0x1234, 0x11223344 and 0x0102030405060708 on a
little-endian GCC host and on a big-endian host with the portable swaps. -/
theorem update_int_absorbs_little_endian_witness :
    (CRC.update_int16 Config.portable_big recorder [] 0x1234
        = [] ++ [Call.process_bytes ((List.range 2).map fun i => 0x1234 / 256 ^ i % 256)] ∧
      CRC.update_int16 Config.portable_big recorder [] 0x1234
        = CRC.update_int16 Config.gcc_little recorder [] 0x1234) ∧
    (CRC.update_int32 Config.portable_big recorder [] 0x11223344
        = [] ++ [Call.process_bytes ((List.range 4).map fun i => 0x11223344 / 256 ^ i % 256)] ∧
      CRC.update_int32 Config.portable_big recorder [] 0x11223344
        = CRC.update_int32 Config.gcc_little recorder [] 0x11223344) ∧
    (CRC.update_int64 Config.portable_big recorder [] 0x0102030405060708
        = [] ++ [Call.process_bytes
            ((List.range 8).map fun i => 0x0102030405060708 / 256 ^ i % 256)] ∧
      CRC.update_int64 Config.portable_big recorder [] 0x0102030405060708
        = CRC.update_int64 Config.gcc_little recorder [] 0x0102030405060708) :=
  update_int_absorbs_little_endian Config.portable_big Config.gcc_little recorder [] []
    0x1234 0x11223344 0x0102030405060708 (by decide) (by decide) (by decide)

/-- C7: on memory holding the bytes s, all non-zero, followed by a zero byte,
update_string returns, having made one process_byte call per byte of s, in
order, each with the unsigned value of the byte, whether char is signed or
not; the zero byte and what follows it are not absorbed, and for empty s
no call is made. -/
theorem update_string_absorbs_content (C : Config) (trace : List Call) (s rest : List Nat)
    (h : ∀ b ∈ s, 0 < b ∧ b < 256) :
    CRC.update_string C recorder trace (s ++ 0 :: rest)
      = some (trace ++ s.map Call.process_byte) ∧
    (CRC.update_string C recorder trace (s ++ 0 :: rest)).map absorbed
      = some (absorbed trace ++ s) ∧
    CRC.update_string C recorder trace (0 :: rest) = some trace := by
  have e := update_string_fold C recorder trace s rest h
  rw [foldl_recorder] at e
  refine ⟨e, ?_, ?_⟩
  · rw [e, Option.map_some', absorbed_append, absorbed_map_process_byte]
  · simp [CRC.update_string, read_char_zero]

/-- Witness of C7: the content 61 80 FF (hex) with signed char, followed by
the terminator and one more stored byte. -/
theorem update_string_absorbs_content_witness :
    CRC.update_string Config.gcc_little recorder [] ([0x61, 0x80, 0xFF] ++ 0 :: [7])
      = some ([] ++ [0x61, 0x80, 0xFF].map Call.process_byte) ∧
    (CRC.update_string Config.gcc_little recorder [] ([0x61, 0x80, 0xFF] ++ 0 :: [7])).map
      absorbed = some (absorbed [] ++ [0x61, 0x80, 0xFF]) ∧
    CRC.update_string Config.gcc_little recorder [] (0 :: [7]) = some [] :=
  update_string_absorbs_content Config.gcc_little [] [0x61, 0x80, 0xFF] [7] (by decide)

/-- C8: update_bool makes exactly one process_byte call, with 1 for true and
0 for false; update_int8 makes exactly one process_byte call, with its
argument. -/
theorem update_bool_int8_absorb_one_byte (trace : List Call) (b : Bool) (v : Nat) :
    CRC.update_bool recorder trace b = trace ++ [Call.process_byte (if b then 1 else 0)] ∧
    absorbed (CRC.update_bool recorder trace true) = absorbed trace ++ [1] ∧
    absorbed (CRC.update_bool recorder trace false) = absorbed trace ++ [0] ∧
    CRC.update_int8 recorder trace v = trace ++ [Call.process_byte v] ∧
    absorbed (CRC.update_int8 recorder trace v) = absorbed trace ++ [v] := by
  refine ⟨rfl, ?_, ?_, rfl, ?_⟩ <;>
    simp [CRC.update_bool, CRC.update_int8, recorder, absorbed_append, absorbed, Call.bytes]

/-! ## The structural visitors -/

theorem absorbed_process_bytes (s : List Call) (bs : List Nat) :
    absorbed (recorder.process_bytes s bs) = absorbed s ++ bs := by
  simp [recorder, absorbed_append, absorbed, Call.bytes]

theorem absorbed_update_bool (s : List Call) (b : Bool) :
    absorbed (CRC.update_bool recorder s b) = absorbed s ++ [if b then 1 else 0] := by
  simp [CRC.update_bool, recorder, absorbed_append, absorbed, Call.bytes]

theorem absorbed_update_int16 (C : Config) (s : List Call) (x : Int) :
    absorbed (CRC.update_int16 C recorder s (to_unsigned 16 x)) = absorbed s ++ spec.LE16 x := by
  rw [update_int16_eq C recorder s _ (to_unsigned_lt 16 x), absorbed_process_bytes, spec.LE16]

theorem absorbed_update_int32 (C : Config) (s : List Call) (x : Int) :
    absorbed (CRC.update_int32 C recorder s (to_unsigned 32 x)) = absorbed s ++ spec.LE32 x := by
  rw [update_int32_eq C recorder s _ (to_unsigned_lt 32 x), absorbed_process_bytes, spec.LE32]

theorem absorbed_update_int64 (C : Config) (s : List Call) (x : Int) :
    absorbed (CRC.update_int64 C recorder s (to_unsigned 64 x)) = absorbed s ++ spec.LE64 x := by
  rw [update_int64_eq C recorder s _ (to_unsigned_lt 64 x), absorbed_process_bytes, spec.LE64]

theorem absorbed_update_Timestamp (C : Config) (s : List Call) (t : Timestamp) :
    absorbed (CRC.update_Timestamp C recorder s t)
      = absorbed s ++ spec.LE32 t.seconds_since_epoch := by
  rw [CRC.update_Timestamp, absorbed_update_int32]

theorem absorbed_update_Location (C : Config) (s : List Call) (l : Location) :
    absorbed (CRC.update_Location C recorder s l)
      = absorbed s ++ (spec.LE32 l.x ++ spec.LE32 l.y) := by
  simp only [CRC.update_Location, absorbed_update_int32, List.append_assoc]

theorem absorbed_update_Box (C : Config) (s : List Call) (b : Box) :
    absorbed (CRC.update_Box C recorder s b)
      = absorbed s ++ (spec.LE32 b.bottom_left.x ++ spec.LE32 b.bottom_left.y
          ++ spec.LE32 b.top_right.x ++ spec.LE32 b.top_right.y) := by
  simp only [CRC.update_Box, absorbed_update_Location, List.append_assoc]

theorem absorbed_update_NodeRefList (C : Config) (s : List Call) (nodes : NodeRefList) :
    absorbed (CRC.update_NodeRefList C recorder s nodes)
      = absorbed s ++ spec.node_ref_bytes nodes := by
  induction nodes generalizing s with
  | nil => simp [CRC.update_NodeRefList, spec.node_ref_bytes]
  | cons r rs ih =>
    rw [CRC.update_NodeRefList, ih, CRC.update_NodeRef, absorbed_update_int64]
    simp [spec.node_ref_bytes]

theorem appends_map {r : Option (List Call)} {s : List Call} {e : List Nat}
    (h : appends r s e) : r.map absorbed = some (absorbed s ++ e) := by
  obtain ⟨t, rfl, ht⟩ := h
  rw [Option.map_some', ht]

theorem appends_update_string (C : Config) (s : List Call) (str : c_string) :
    appends (CRC.update_string C recorder s str.c_str) s str.content := by
  have e := update_string_fold C recorder s str.content [] str.valid
  rw [foldl_recorder] at e
  exact ⟨_, e, by rw [absorbed_append, absorbed_map_process_byte]⟩

theorem appends_update_TagList (C : Config) (s : List Call) (tags : TagList) :
    appends (CRC.update_TagList C recorder s tags) s (spec.tag_bytes tags) := by
  induction tags generalizing s with
  | nil => exact ⟨s, rfl, by simp [spec.tag_bytes]⟩
  | cons t ts ih =>
    obtain ⟨s1, h1, a1⟩ := appends_update_string C s t.key
    obtain ⟨s2, h2, a2⟩ := appends_update_string C s1 t.value
    obtain ⟨s3, h3, a3⟩ := ih s2
    refine ⟨s3, ?_, ?_⟩
    · simp [CRC.update_TagList, h1, h2, h3]
    · rw [a3, a2, a1]
      simp [spec.tag_bytes]

theorem appends_update_RelationMember (C : Config) (s : List Call) (m : RelationMember) :
    appends (CRC.update_RelationMember C recorder s m) s
      (spec.LE64 m.ref ++ spec.LE16 m.type ++ m.role.content) := by
  obtain ⟨s1, h1, a1⟩ := appends_update_string C
    (CRC.update_int16 C recorder (CRC.update_int64 C recorder s (to_unsigned 64 m.ref))
      (to_unsigned 16 m.type)) m.role
  refine ⟨s1, h1, ?_⟩
  rw [a1, absorbed_update_int16, absorbed_update_int64]
  simp

theorem appends_update_RelationMemberList (C : Config) (s : List Call)
    (members : RelationMemberList) :
    appends (CRC.update_RelationMemberList C recorder s members) s
      (members.flatMap fun m => spec.LE64 m.ref ++ spec.LE16 m.type ++ m.role.content) := by
  induction members generalizing s with
  | nil => exact ⟨s, rfl, by simp⟩
  | cons m ms ih =>
    obtain ⟨s1, h1, a1⟩ := appends_update_RelationMember C s m
    obtain ⟨s2, h2, a2⟩ := ih s1
    refine ⟨s2, ?_, ?_⟩
    · simp [CRC.update_RelationMemberList, h1, h2]
    · rw [a2, a1]
      simp

theorem appends_update_OSMObject (C : Config) (s : List Call) (o : OSMObject) :
    appends (CRC.update_OSMObject C recorder s o) s (spec.object_bytes o) := by
  obtain ⟨s1, h1, a1⟩ := appends_update_string C
    (CRC.update_int32 C recorder
      (CRC.update_Timestamp C recorder
        (CRC.update_int32 C recorder
          (CRC.update_bool recorder (CRC.update_int64 C recorder s (to_unsigned 64 o.id))
            o.visible)
          (to_unsigned 32 o.version))
        o.timestamp)
      (to_unsigned 32 o.uid)) o.user
  obtain ⟨s2, h2, a2⟩ := appends_update_TagList C s1 o.tags
  refine ⟨s2, ?_, ?_⟩
  · simp [CRC.update_OSMObject, h1, h2]
  · rw [a2, a1, absorbed_update_int32, absorbed_update_Timestamp, absorbed_update_int32,
      absorbed_update_bool, absorbed_update_int64]
    simp [spec.object_bytes]

theorem absorbed_update_Area_items (C : Config) (s : List Call) (items : List SubItem) :
    absorbed (CRC.update_Area_items C recorder s items)
      = absorbed s ++ (items.filter fun it =>
          decide (it.type = C.outer_ring ∨ it.type = C.inner_ring)).flatMap
            fun it => spec.node_ref_bytes it.nodes := by
  induction items generalizing s with
  | nil => simp [CRC.update_Area_items]
  | cons it rest ih =>
    by_cases h : it.type = C.outer_ring ∨ it.type = C.inner_ring
    · rw [CRC.update_Area_items, if_pos h, ih, absorbed_update_NodeRefList,
        List.filter_cons_of_pos (by simpa using h)]
      simp
    · rw [CRC.update_Area_items, if_neg h, ih, List.filter_cons_of_neg (by simpa using h)]

theorem update_Area_items_append {σ δ : Type} (C : Config) (A : TCRC σ δ) (m_crc : σ)
    (front back : List SubItem) :
    CRC.update_Area_items C A m_crc (front ++ back)
      = CRC.update_Area_items C A (CRC.update_Area_items C A m_crc front) back := by
  induction front generalizing m_crc with
  | nil => rfl
  | cons it rest ih =>
    by_cases h : it.type = C.outer_ring ∨ it.type = C.inner_ring
    · rw [List.cons_append, CRC.update_Area_items, if_pos h, ih, CRC.update_Area_items,
        if_pos h]
    · rw [List.cons_append, CRC.update_Area_items, if_neg h, ih, CRC.update_Area_items,
        if_neg h]

theorem length_tag_bytes (tags : TagList) :
    (spec.tag_bytes tags).length
      = (tags.map fun t => t.key.content.length + t.value.content.length).sum := by
  induction tags with
  | nil => rfl
  | cons t ts ih =>
    rw [spec.tag_bytes, List.flatMap_cons, List.length_append, List.length_append,
      ← spec.tag_bytes, ih, List.map_cons, List.sum_cons]

theorem length_node_ref_bytes (nodes : NodeRefList) :
    (spec.node_ref_bytes nodes).length = 8 * nodes.length := by
  induction nodes with
  | nil => rfl
  | cons r rs ih =>
    rw [spec.node_ref_bytes, List.flatMap_cons, List.length_append, ← spec.node_ref_bytes, ih,
      spec.LE64, length_LE, List.length_cons]
    omega

theorem length_object_bytes (o : OSMObject) :
    (spec.object_bytes o).length
      = 21 + o.user.content.length
        + (o.tags.map fun t => t.key.content.length + t.value.content.length).sum := by
  simp only [spec.object_bytes, List.length_append, length_tag_bytes, spec.LE64, spec.LE32,
    length_LE, List.length_singleton]

theorem update_TagList_isSome {σ δ : Type} (C : Config) (A : TCRC σ δ) (m_crc : σ)
    (tags : TagList) : (CRC.update_TagList C A m_crc tags).isSome = true := by
  induction tags generalizing m_crc with
  | nil => rfl
  | cons t ts ih =>
    simp only [CRC.update_TagList, c_string.c_str, update_string_fold C A _ _ [] t.key.valid,
      update_string_fold C A _ _ [] t.value.valid, Option.bind_eq_bind, Option.some_bind, ih]

theorem update_OSMObject_isSome {σ δ : Type} (C : Config) (A : TCRC σ δ) (m_crc : σ)
    (o : OSMObject) : (CRC.update_OSMObject C A m_crc o).isSome = true := by
  simp only [CRC.update_OSMObject, c_string.c_str, update_string_fold C A _ _ [] o.user.valid,
    Option.bind_eq_bind, Option.some_bind, update_TagList_isSome]

/-- C2: from any state of the recorder, update(Node) returns, and the bytes
absorbed are those absorbed before followed by exactly LE64(id), the visible
byte, LE32(version), LE32(timestamp), LE32(uid), the bytes of user, for each
tag in order the bytes of key then of value, LE32(x), LE32(y); their number
is 29 + |user| + the sum of |key| + |value| over the tags; the node of
scenario A absorbs the 29 bytes listed. -/
theorem update_Node_stream (C : Config) (trace : List Call) (n : Node) :
    (CRC.update_Node C recorder trace n).map absorbed
      = some (absorbed trace ++
          (spec.LE64 n.id ++ [if n.visible then 1 else 0] ++ spec.LE32 n.version
            ++ spec.LE32 n.timestamp.seconds_since_epoch ++ spec.LE32 n.uid
            ++ n.user.content
            ++ (n.tags.flatMap fun t => t.key.content ++ t.value.content)
            ++ spec.LE32 n.location.x ++ spec.LE32 n.location.y)) ∧
    (CRC.update_Node C recorder [] n).map (fun s => (absorbed s).length)
      = some (29 + n.user.content.length
          + (n.tags.map fun t => t.key.content.length + t.value.content.length).sum) ∧
    (CRC.update_Node C recorder [] scenario_A).map absorbed
      = some [0x01, 0x00, 0x00, 0x00, 0x00, 0x00, 0x00, 0x00, 0x01, 0x01, 0x00, 0x00, 0x00,
          0x00, 0x00, 0x00, 0x00, 0x00, 0x00, 0x00, 0x00, 0x0A, 0x00, 0x00, 0x00,
          0x14, 0x00, 0x00, 0x00] := by
  have key : ∀ (s : List Call) (m : Node), ∃ t, CRC.update_Node C recorder s m = some t ∧
      absorbed t = absorbed s ++ (spec.object_bytes m.toOSMObject
        ++ (spec.LE32 m.location.x ++ spec.LE32 m.location.y)) := by
    intro s m
    obtain ⟨s1, h1, a1⟩ := appends_update_OSMObject C s m.toOSMObject
    refine ⟨CRC.update_Location C recorder s1 m.location, by simp [CRC.update_Node, h1], ?_⟩
    rw [absorbed_update_Location, a1, List.append_assoc]
  refine ⟨?_, ?_, ?_⟩
  · obtain ⟨t, ht, at_⟩ := key trace n
    rw [ht, Option.map_some', at_]
    simp [spec.object_bytes, spec.tag_bytes]
  · obtain ⟨t, ht, at_⟩ := key [] n
    rw [ht, Option.map_some', at_]
    simp only [absorbed, List.nil_append, List.length_append, length_object_bytes, spec.LE32,
      length_LE]
    congr 1
    omega
  · obtain ⟨t, ht, at_⟩ := key [] scenario_A
    rw [ht, Option.map_some', at_]
    decide

/-- C3: from any state of the recorder, update(Changeset) returns, and the
bytes absorbed are those absorbed before followed by exactly LE64(id),
LE32(created_at), LE32(closed_at), the four LE32 coordinates of the bounds
(bottom left x, y, top right x, y), LE32(num_changes), LE32(uid), the bytes of
user and the bytes of the tags: no visible and no version field, and 40 bytes
before the user string. -/
theorem update_Changeset_stream (C : Config) (trace : List Call) (c : Changeset) :
    (CRC.update_Changeset C recorder trace c).map absorbed
      = some (absorbed trace ++
          (spec.LE64 c.id ++ spec.LE32 c.created_at.seconds_since_epoch
            ++ spec.LE32 c.closed_at.seconds_since_epoch
            ++ spec.LE32 c.bounds.bottom_left.x ++ spec.LE32 c.bounds.bottom_left.y
            ++ spec.LE32 c.bounds.top_right.x ++ spec.LE32 c.bounds.top_right.y
            ++ spec.LE32 c.num_changes ++ spec.LE32 c.uid
            ++ c.user.content
            ++ (c.tags.flatMap fun t => t.key.content ++ t.value.content))) ∧
    (spec.LE64 c.id ++ spec.LE32 c.created_at.seconds_since_epoch
        ++ spec.LE32 c.closed_at.seconds_since_epoch
        ++ spec.LE32 c.bounds.bottom_left.x ++ spec.LE32 c.bounds.bottom_left.y
        ++ spec.LE32 c.bounds.top_right.x ++ spec.LE32 c.bounds.top_right.y
        ++ spec.LE32 c.num_changes ++ spec.LE32 c.uid).length = 40 ∧
    (CRC.update_Changeset C recorder [] c).map (fun s => (absorbed s).length)
      = some (40 + c.user.content.length
          + (c.tags.map fun t => t.key.content.length + t.value.content.length).sum) := by
  have key : ∀ s : List Call, ∃ t, CRC.update_Changeset C recorder s c = some t ∧
      absorbed t = absorbed s ++
        (spec.LE64 c.id ++ spec.LE32 c.created_at.seconds_since_epoch
          ++ spec.LE32 c.closed_at.seconds_since_epoch
          ++ spec.LE32 c.bounds.bottom_left.x ++ spec.LE32 c.bounds.bottom_left.y
          ++ spec.LE32 c.bounds.top_right.x ++ spec.LE32 c.bounds.top_right.y
          ++ spec.LE32 c.num_changes ++ spec.LE32 c.uid
          ++ c.user.content ++ spec.tag_bytes c.tags) := by
    intro s
    obtain ⟨s1, h1, a1⟩ := appends_update_string C
      (CRC.update_int32 C recorder
        (CRC.update_int32 C recorder
          (CRC.update_Box C recorder
            (CRC.update_Timestamp C recorder
              (CRC.update_Timestamp C recorder
                (CRC.update_int64 C recorder s (to_unsigned 64 c.id)) c.created_at)
              c.closed_at)
            c.bounds)
          (to_unsigned 32 c.num_changes))
        (to_unsigned 32 c.uid)) c.user
    obtain ⟨s2, h2, a2⟩ := appends_update_TagList C s1 c.tags
    refine ⟨s2, by simp [CRC.update_Changeset, h1, h2], ?_⟩
    rw [a2, a1, absorbed_update_int32, absorbed_update_int32, absorbed_update_Box,
      absorbed_update_Timestamp, absorbed_update_Timestamp, absorbed_update_int64]
    simp
  refine ⟨?_, ?_, ?_⟩
  · obtain ⟨t, ht, at_⟩ := key trace
    rw [ht, Option.map_some', at_]
    rfl
  · simp only [List.length_append, spec.LE64, spec.LE32, length_LE]
  · obtain ⟨t, ht, at_⟩ := key []
    rw [ht, Option.map_some', at_]
    simp only [absorbed, List.nil_append, List.length_append, length_tag_bytes, spec.LE64,
      spec.LE32, length_LE]

/-- C4: from any state of the recorder, update(Area) returns, and the bytes
absorbed are those absorbed before, the object fields, and then, in storage
order, the node references of exactly the sub-items whose type is outer_ring
or inner_ring, the type itself giving no byte; and with any accumulator,
a sub-item of another type inserted at any position changes neither the
final state nor the digest. -/
theorem update_Area_stream {σ δ : Type} (C : Config) (A : TCRC σ δ) (m_crc : σ)
    (trace : List Call) (a : Area) (front back : List SubItem) (x : SubItem)
    (hx : x.type ≠ C.outer_ring ∧ x.type ≠ C.inner_ring) :
    (CRC.update_Area C recorder trace a).map absorbed
      = some (absorbed trace ++
          (spec.object_bytes a.toOSMObject
            ++ (a.items.filter fun it =>
                  decide (it.type = C.outer_ring ∨ it.type = C.inner_ring)).flatMap
                fun it => it.nodes.flatMap fun r => spec.LE64 r.ref)) ∧
    (CRC.update_Area C A m_crc { a with items := front ++ back }).isSome = true ∧
    CRC.update_Area C A m_crc { a with items := front ++ x :: back }
      = CRC.update_Area C A m_crc { a with items := front ++ back } ∧
    (CRC.update_Area C A m_crc { a with items := front ++ x :: back }).map A.checksum
      = (CRC.update_Area C A m_crc { a with items := front ++ back }).map A.checksum := by
  have skip : ∀ s : σ, CRC.update_Area_items C A s (front ++ x :: back)
      = CRC.update_Area_items C A s (front ++ back) := by
    intro s
    rw [update_Area_items_append, update_Area_items_append, CRC.update_Area_items,
      if_neg (by rintro (h | h); exacts [hx.1 h, hx.2 h])]
  have eq : CRC.update_Area C A m_crc { a with items := front ++ x :: back }
      = CRC.update_Area C A m_crc { a with items := front ++ back } := by
    simp only [CRC.update_Area, skip]
  refine ⟨?_, ?_, eq, by rw [eq]⟩
  · obtain ⟨s1, h1, a1⟩ := appends_update_OSMObject C trace a.toOSMObject
    simp only [CRC.update_Area, h1, Option.bind_eq_bind, Option.some_bind, Option.map_some',
      Option.pure_def, absorbed_update_Area_items, a1, List.append_assoc,
      spec.node_ref_bytes]
  · have h := update_OSMObject_isSome C A m_crc a.toOSMObject
    obtain ⟨s1, h1⟩ := Option.isSome_iff_exists.mp h
    simp [CRC.update_Area, h1]

/-- Witness of C4 (scenario D): the area with one outer ring of three node
references, with and without a further sub-item of another type after it. -/
theorem update_Area_stream_witness :
    (CRC.update_Area Config.gcc_little recorder [] (scenario_D Config.gcc_little)).map absorbed
      = some (absorbed [] ++
          (spec.object_bytes (scenario_D Config.gcc_little).toOSMObject
            ++ ((scenario_D Config.gcc_little).items.filter fun it =>
                  decide (it.type = Config.gcc_little.outer_ring
                    ∨ it.type = Config.gcc_little.inner_ring)).flatMap
                fun it => it.nodes.flatMap fun r => spec.LE64 r.ref)) ∧
    (CRC.update_Area Config.gcc_little recorder []
      { scenario_D Config.gcc_little with
        items := (scenario_D Config.gcc_little).items ++ [] }).isSome = true ∧
    CRC.update_Area Config.gcc_little recorder []
        { scenario_D Config.gcc_little with
          items := (scenario_D Config.gcc_little).items ++ other_item :: [] }
      = CRC.update_Area Config.gcc_little recorder []
        { scenario_D Config.gcc_little with
          items := (scenario_D Config.gcc_little).items ++ [] } ∧
    (CRC.update_Area Config.gcc_little recorder []
        { scenario_D Config.gcc_little with
          items := (scenario_D Config.gcc_little).items ++ other_item :: [] }).map
        recorder.checksum
      = (CRC.update_Area Config.gcc_little recorder []
        { scenario_D Config.gcc_little with
          items := (scenario_D Config.gcc_little).items ++ [] }).map recorder.checksum :=
  update_Area_stream Config.gcc_little recorder [] [] (scenario_D Config.gcc_little)
    (scenario_D Config.gcc_little).items [] other_item (by decide)

/-- C5: from any state of the recorder, update(Relation) returns, and the
bytes absorbed are those absorbed before, the object fields, and then for each
member in list order LE64(ref), LE16(type) and the bytes of the role; a member
gives 8 bytes for its ref, 2 for its type and the bytes of its role with no
terminator and no length. -/
theorem update_Relation_stream (C : Config) (trace : List Call) (r : Relation)
    (m : RelationMember) :
    (CRC.update_Relation C recorder trace r).map absorbed
      = some (absorbed trace ++
          (spec.object_bytes r.toOSMObject
            ++ r.members.flatMap fun m =>
                spec.LE64 m.ref ++ spec.LE16 m.type ++ m.role.content)) ∧
    (CRC.update_RelationMember C recorder trace m).map absorbed
      = some (absorbed trace ++ (spec.LE64 m.ref ++ spec.LE16 m.type ++ m.role.content)) ∧
    (spec.LE64 m.ref).length = 8 ∧ (spec.LE16 m.type).length = 2 ∧
    (CRC.update_RelationMember C recorder [] m).map (fun s => (absorbed s).length)
      = some (8 + 2 + m.role.content.length) := by
  refine ⟨?_, appends_map (appends_update_RelationMember C trace m), ?_, ?_, ?_⟩
  · obtain ⟨s1, h1, a1⟩ := appends_update_OSMObject C trace r.toOSMObject
    obtain ⟨s2, h2, a2⟩ := appends_update_RelationMemberList C s1 r.members
    simp only [CRC.update_Relation, h1, h2, Option.bind_eq_bind, Option.some_bind,
      Option.map_some', a2, a1, List.append_assoc]
  · rw [spec.LE64, length_LE]
  · rw [spec.LE16, length_LE]
  · obtain ⟨t, ht, at_⟩ := appends_update_RelationMember C [] m
    rw [ht, Option.map_some', at_]
    simp only [absorbed, List.nil_append, List.length_append, spec.LE64, spec.LE16,
      length_LE]

/-- C6: from any state of the recorder, update(Way) returns, and the bytes
absorbed are those absorbed before, the object fields, and then LE64 of each
node reference in list order: 8 bytes per reference, no count and no
separator. -/
theorem update_Way_stream (C : Config) (trace : List Call) (w : Way) :
    (CRC.update_Way C recorder trace w).map absorbed
      = some (absorbed trace ++
          (spec.object_bytes w.toOSMObject ++ w.nodes.flatMap fun r => spec.LE64 r.ref)) ∧
    absorbed (CRC.update_NodeRefList C recorder trace w.nodes)
      = absorbed trace ++ (w.nodes.flatMap fun r => spec.LE64 r.ref) ∧
    (absorbed (CRC.update_NodeRefList C recorder [] w.nodes)).length = 8 * w.nodes.length := by
  refine ⟨?_, absorbed_update_NodeRefList C trace w.nodes, ?_⟩
  · obtain ⟨s1, h1, a1⟩ := appends_update_OSMObject C trace w.toOSMObject
    simp only [CRC.update_Way, h1, Option.bind_eq_bind, Option.some_bind, Option.map_some',
      Option.pure_def, absorbed_update_NodeRefList, a1, List.append_assoc,
      spec.node_ref_bytes]
  · rw [absorbed_update_NodeRefList, absorbed, List.nil_append, length_node_ref_bytes]

/-! ## The byte swaps as involutions -/

theorem builtin_bswap_builtin_bswap (n v : Nat) :
    builtin_bswap n (builtin_bswap n v) = v % 256 ^ n := by
  rw [builtin_bswap, low_bytes_first_builtin_bswap, List.reverse_reverse,
    of_low_bytes_first_low]

theorem byte_swap_16_lt (g : Bool) (v : Nat) (h : v < 2 ^ 16) :
    util.byte_swap_16 g v < 2 ^ 16 := by
  rw [byte_swap_16_eq_builtin g v h]
  exact builtin_bswap_lt 2 v

theorem byte_swap_32_lt (g : Bool) (v : Nat) (h : v < 2 ^ 32) :
    util.byte_swap_32 g v < 2 ^ 32 := by
  rw [byte_swap_32_eq_builtin g v h]
  exact builtin_bswap_lt 4 v

theorem byte_swap_64_lt (g : Bool) (v : Nat) (h : v < 2 ^ 64) :
    util.byte_swap_64 g v < 2 ^ 64 := by
  rw [byte_swap_64_eq_builtin g v h]
  exact builtin_bswap_lt 8 v

theorem byte_swap_16_twice (g : Bool) (v : Nat) (h : v < 2 ^ 16) :
    util.byte_swap_16 g (util.byte_swap_16 g v) = v := by
  rw [byte_swap_16_eq_builtin g _ (byte_swap_16_lt g v h), byte_swap_16_eq_builtin g v h,
    builtin_bswap_builtin_bswap]
  exact Nat.mod_eq_of_lt h

theorem byte_swap_32_twice (g : Bool) (v : Nat) (h : v < 2 ^ 32) :
    util.byte_swap_32 g (util.byte_swap_32 g v) = v := by
  rw [byte_swap_32_eq_builtin g _ (byte_swap_32_lt g v h), byte_swap_32_eq_builtin g v h,
    builtin_bswap_builtin_bswap]
  exact Nat.mod_eq_of_lt h

theorem byte_swap_64_twice (g : Bool) (v : Nat) (h : v < 2 ^ 64) :
    util.byte_swap_64 g (util.byte_swap_64 g v) = v := by
  rw [byte_swap_64_eq_builtin g _ (byte_swap_64_lt g v h), byte_swap_64_eq_builtin g v h,
    builtin_bswap_builtin_bswap]
  exact Nat.mod_eq_of_lt h

/-- C11: for every 16-bit value v the portable definition of byte_swap_16,
(v >> 8) | (v << 8) truncated to 16 bits, is (v mod 256) * 256 + v / 256, the
value with the two bytes of v exchanged; byte_swap_16(0x1234) is 0x3412. -/
theorem byte_swap_16_exchanges_bytes (v : Nat) (h : v < 2 ^ 16) :
    util.byte_swap_16 false v = ((v >>> 8) ||| (v <<< 8)) % 2 ^ 16 ∧
    util.byte_swap_16 false v = v % 256 * 256 + v / 256 ∧
    util.byte_swap_16 false v < 2 ^ 16 ∧
    util.byte_swap_16 false 0x1234 = 0x3412 := by
  refine ⟨by simp [util.byte_swap_16], ?_, byte_swap_16_lt false v h, by decide⟩
  rw [byte_swap_16_eq_builtin false v h, builtin_bswap_two]
  omega

/-- Witness of C11 at v = 0x1234. -/
theorem byte_swap_16_exchanges_bytes_witness :
    util.byte_swap_16 false 0x1234 = ((0x1234 >>> 8) ||| (0x1234 <<< 8)) % 2 ^ 16 ∧
    util.byte_swap_16 false 0x1234 = 0x1234 % 256 * 256 + 0x1234 / 256 ∧
    util.byte_swap_16 false 0x1234 < 2 ^ 16 ∧
    util.byte_swap_16 false 0x1234 = 0x3412 :=
  byte_swap_16_exchanges_bytes 0x1234 (by decide)

/-- C19: the portable byte swaps are their own inverses on the values of
their width, 16, 32 and 64 bits, and each maps the values of its width one to
one onto the values of its width. -/
theorem byte_swap_involutive (v16 v32 v64 : Nat)
    (h16 : v16 < 2 ^ 16) (h32 : v32 < 2 ^ 32) (h64 : v64 < 2 ^ 64) :
    util.byte_swap_16 false (util.byte_swap_16 false v16) = v16 ∧
    util.byte_swap_32 false (util.byte_swap_32 false v32) = v32 ∧
    util.byte_swap_64 false (util.byte_swap_64 false v64) = v64 ∧
    Set.BijOn (util.byte_swap_16 false) (Set.Iio (2 ^ 16)) (Set.Iio (2 ^ 16)) ∧
    Set.BijOn (util.byte_swap_32 false) (Set.Iio (2 ^ 32)) (Set.Iio (2 ^ 32)) ∧
    Set.BijOn (util.byte_swap_64 false) (Set.Iio (2 ^ 64)) (Set.Iio (2 ^ 64)) := by
  refine ⟨byte_swap_16_twice false v16 h16, byte_swap_32_twice false v32 h32,
    byte_swap_64_twice false v64 h64, ?_, ?_, ?_⟩
  · exact Set.InvOn.bijOn ⟨fun v hv => byte_swap_16_twice false v hv,
      fun v hv => byte_swap_16_twice false v hv⟩
      (fun v hv => byte_swap_16_lt false v hv) (fun v hv => byte_swap_16_lt false v hv)
  · exact Set.InvOn.bijOn ⟨fun v hv => byte_swap_32_twice false v hv,
      fun v hv => byte_swap_32_twice false v hv⟩
      (fun v hv => byte_swap_32_lt false v hv) (fun v hv => byte_swap_32_lt false v hv)
  · exact Set.InvOn.bijOn ⟨fun v hv => byte_swap_64_twice false v hv,
      fun v hv => byte_swap_64_twice false v hv⟩
      (fun v hv => byte_swap_64_lt false v hv) (fun v hv => byte_swap_64_lt false v hv)

/-- Witness of C19 at 0x1234, 0x11223344 and 0x0102030405060708. -/
theorem byte_swap_involutive_witness :
    util.byte_swap_16 false (util.byte_swap_16 false 0x1234) = 0x1234 ∧
    util.byte_swap_32 false (util.byte_swap_32 false 0x11223344) = 0x11223344 ∧
    util.byte_swap_64 false (util.byte_swap_64 false 0x0102030405060708)
      = 0x0102030405060708 ∧
    Set.BijOn (util.byte_swap_16 false) (Set.Iio (2 ^ 16)) (Set.Iio (2 ^ 16)) ∧
    Set.BijOn (util.byte_swap_32 false) (Set.Iio (2 ^ 32)) (Set.Iio (2 ^ 32)) ∧
    Set.BijOn (util.byte_swap_64 false) (Set.Iio (2 ^ 64)) (Set.Iio (2 ^ 64)) :=
  byte_swap_involutive 0x1234 0x11223344 0x0102030405060708
    (by decide) (by decide) (by decide)

/-! ## Every operation feeds the accumulator a sequence of calls -/

theorem replay_append {σ δ : Type} (A : TCRC σ δ) (s : σ) (c d : List Call) :
    replay A s (c ++ d) = replay A (replay A s c) d := by
  induction c generalizing s with
  | nil => rfl
  | cons x c ih => cases x <;> simp [replay, ih]

theorem replay_recorder (s c : List Call) : replay recorder s c = s ++ c := by
  induction c generalizing s with
  | nil => simp [replay]
  | cons x c ih =>
    cases x
    · rw [replay, ih]
      simp [recorder]
    · rw [replay, ih]
      simp [recorder]

theorem recorder_distinguishes : distinguishes recorder [] := by
  intro c d h
  rw [replay_recorder, replay_recorder, List.nil_append, List.nil_append] at h
  exact h

theorem update_bool_calls (b : Bool) :
    ∃ calls : List Call, ∀ (σ δ : Type) (A : TCRC σ δ) (s : σ),
      CRC.update_bool A s b = replay A s calls :=
  ⟨[Call.process_byte (if b then 1 else 0)], fun _ _ _ _ => rfl⟩

theorem update_int8_calls (v : Nat) :
    ∃ calls : List Call, ∀ (σ δ : Type) (A : TCRC σ δ) (s : σ),
      CRC.update_int8 A s v = replay A s calls :=
  ⟨[Call.process_byte v], fun _ _ _ _ => rfl⟩

theorem update_int16_calls (C : Config) (v : Nat) :
    ∃ calls : List Call, ∀ (σ δ : Type) (A : TCRC σ δ) (s : σ),
      CRC.update_int16 C A s v = replay A s calls := by
  refine ⟨[Call.process_bytes (object_representation C.little_endian 2
    (if C.little_endian then v else util.byte_swap_16 C.gnuc v))], fun σ δ A s => ?_⟩
  cases h : C.little_endian <;> simp [CRC.update_int16, replay, h]

theorem update_int32_calls (C : Config) (v : Nat) :
    ∃ calls : List Call, ∀ (σ δ : Type) (A : TCRC σ δ) (s : σ),
      CRC.update_int32 C A s v = replay A s calls := by
  refine ⟨[Call.process_bytes (object_representation C.little_endian 4
    (if C.little_endian then v else util.byte_swap_32 C.gnuc v))], fun σ δ A s => ?_⟩
  cases h : C.little_endian <;> simp [CRC.update_int32, replay, h]

theorem update_int64_calls (C : Config) (v : Nat) :
    ∃ calls : List Call, ∀ (σ δ : Type) (A : TCRC σ δ) (s : σ),
      CRC.update_int64 C A s v = replay A s calls := by
  refine ⟨[Call.process_bytes (object_representation C.little_endian 8
    (if C.little_endian then v else util.byte_swap_64 C.gnuc v))], fun σ δ A s => ?_⟩
  cases h : C.little_endian <;> simp [CRC.update_int64, replay, h]

theorem foldl_process_byte {σ δ : Type} (A : TCRC σ δ) (s : σ) (bs : List Nat) :
    bs.foldl A.process_byte s = replay A s (bs.map Call.process_byte) := by
  induction bs generalizing s with
  | nil => rfl
  | cons b bs ih => simp [replay, ih]

theorem update_string_calls (C : Config) (str rest : List Nat)
    (h : ∀ b ∈ str, 0 < b ∧ b < 256) :
    ∃ calls : List Call, ∀ (σ δ : Type) (A : TCRC σ δ) (s : σ),
      CRC.update_string C A s (str ++ 0 :: rest) = some (replay A s calls) :=
  ⟨str.map Call.process_byte, fun σ δ A s => by
    rw [update_string_fold C A s str rest h, foldl_process_byte]⟩

theorem update_c_str_calls (C : Config) (str : c_string) :
    ∃ calls : List Call, ∀ (σ δ : Type) (A : TCRC σ δ) (s : σ),
      CRC.update_string C A s str.c_str = some (replay A s calls) :=
  update_string_calls C str.content [] str.valid

theorem update_Timestamp_calls (C : Config) (t : Timestamp) :
    ∃ calls : List Call, ∀ (σ δ : Type) (A : TCRC σ δ) (s : σ),
      CRC.update_Timestamp C A s t = replay A s calls :=
  update_int32_calls C _

theorem update_Location_calls (C : Config) (l : Location) :
    ∃ calls : List Call, ∀ (σ δ : Type) (A : TCRC σ δ) (s : σ),
      CRC.update_Location C A s l = replay A s calls := by
  obtain ⟨c1, h1⟩ := update_int32_calls C (to_unsigned 32 l.x)
  obtain ⟨c2, h2⟩ := update_int32_calls C (to_unsigned 32 l.y)
  exact ⟨c1 ++ c2, fun σ δ A s => by simp only [CRC.update_Location, h1, h2, replay_append]⟩

theorem update_Box_calls (C : Config) (b : Box) :
    ∃ calls : List Call, ∀ (σ δ : Type) (A : TCRC σ δ) (s : σ),
      CRC.update_Box C A s b = replay A s calls := by
  obtain ⟨c1, h1⟩ := update_Location_calls C b.bottom_left
  obtain ⟨c2, h2⟩ := update_Location_calls C b.top_right
  exact ⟨c1 ++ c2, fun σ δ A s => by simp only [CRC.update_Box, h1, h2, replay_append]⟩

theorem update_NodeRef_calls (C : Config) (r : NodeRef) :
    ∃ calls : List Call, ∀ (σ δ : Type) (A : TCRC σ δ) (s : σ),
      CRC.update_NodeRef C A s r = replay A s calls :=
  update_int64_calls C _

theorem update_NodeRefList_calls (C : Config) (nodes : NodeRefList) :
    ∃ calls : List Call, ∀ (σ δ : Type) (A : TCRC σ δ) (s : σ),
      CRC.update_NodeRefList C A s nodes = replay A s calls := by
  induction nodes with
  | nil => exact ⟨[], fun _ _ _ _ => rfl⟩
  | cons r rs ih =>
    obtain ⟨c1, h1⟩ := update_NodeRef_calls C r
    obtain ⟨c2, h2⟩ := ih
    exact ⟨c1 ++ c2, fun σ δ A s => by
      simp only [CRC.update_NodeRefList, h1, h2, replay_append]⟩

theorem update_TagList_calls (C : Config) (tags : TagList) :
    ∃ calls : List Call, ∀ (σ δ : Type) (A : TCRC σ δ) (s : σ),
      CRC.update_TagList C A s tags = some (replay A s calls) := by
  induction tags with
  | nil => exact ⟨[], fun _ _ _ _ => rfl⟩
  | cons t ts ih =>
    obtain ⟨c1, h1⟩ := update_c_str_calls C t.key
    obtain ⟨c2, h2⟩ := update_c_str_calls C t.value
    obtain ⟨c3, h3⟩ := ih
    exact ⟨c1 ++ c2 ++ c3, fun σ δ A s => by
      simp only [CRC.update_TagList, h1, h2, h3, Option.bind_eq_bind, Option.some_bind,
        replay_append]⟩

theorem update_RelationMember_calls (C : Config) (m : RelationMember) :
    ∃ calls : List Call, ∀ (σ δ : Type) (A : TCRC σ δ) (s : σ),
      CRC.update_RelationMember C A s m = some (replay A s calls) := by
  obtain ⟨c1, h1⟩ := update_int64_calls C (to_unsigned 64 m.ref)
  obtain ⟨c2, h2⟩ := update_int16_calls C (to_unsigned 16 m.type)
  obtain ⟨c3, h3⟩ := update_c_str_calls C m.role
  exact ⟨c1 ++ c2 ++ c3, fun σ δ A s => by
    simp only [CRC.update_RelationMember, h1, h2, h3, replay_append]⟩

theorem update_RelationMemberList_calls (C : Config) (members : RelationMemberList) :
    ∃ calls : List Call, ∀ (σ δ : Type) (A : TCRC σ δ) (s : σ),
      CRC.update_RelationMemberList C A s members = some (replay A s calls) := by
  induction members with
  | nil => exact ⟨[], fun _ _ _ _ => rfl⟩
  | cons m ms ih =>
    obtain ⟨c1, h1⟩ := update_RelationMember_calls C m
    obtain ⟨c2, h2⟩ := ih
    exact ⟨c1 ++ c2, fun σ δ A s => by
      simp only [CRC.update_RelationMemberList, h1, h2, Option.bind_eq_bind,
        Option.some_bind, replay_append]⟩

theorem update_OSMObject_calls (C : Config) (o : OSMObject) :
    ∃ calls : List Call, ∀ (σ δ : Type) (A : TCRC σ δ) (s : σ),
      CRC.update_OSMObject C A s o = some (replay A s calls) := by
  obtain ⟨c1, h1⟩ := update_int64_calls C (to_unsigned 64 o.id)
  obtain ⟨c2, h2⟩ := update_bool_calls o.visible
  obtain ⟨c3, h3⟩ := update_int32_calls C (to_unsigned 32 o.version)
  obtain ⟨c4, h4⟩ := update_Timestamp_calls C o.timestamp
  obtain ⟨c5, h5⟩ := update_int32_calls C (to_unsigned 32 o.uid)
  obtain ⟨c6, h6⟩ := update_c_str_calls C o.user
  obtain ⟨c7, h7⟩ := update_TagList_calls C o.tags
  exact ⟨c1 ++ c2 ++ c3 ++ c4 ++ c5 ++ c6 ++ c7, fun σ δ A s => by
    simp only [CRC.update_OSMObject, h1, h2, h3, h4, h5, h6, h7, Option.bind_eq_bind,
      Option.some_bind, replay_append]⟩

theorem update_Node_calls (C : Config) (n : Node) :
    ∃ calls : List Call, ∀ (σ δ : Type) (A : TCRC σ δ) (s : σ),
      CRC.update_Node C A s n = some (replay A s calls) := by
  obtain ⟨c1, h1⟩ := update_OSMObject_calls C n.toOSMObject
  obtain ⟨c2, h2⟩ := update_Location_calls C n.location
  exact ⟨c1 ++ c2, fun σ δ A s => by
    simp only [CRC.update_Node, h1, h2, Option.bind_eq_bind, Option.some_bind,
      Option.pure_def, replay_append]⟩

theorem update_Way_calls (C : Config) (w : Way) :
    ∃ calls : List Call, ∀ (σ δ : Type) (A : TCRC σ δ) (s : σ),
      CRC.update_Way C A s w = some (replay A s calls) := by
  obtain ⟨c1, h1⟩ := update_OSMObject_calls C w.toOSMObject
  obtain ⟨c2, h2⟩ := update_NodeRefList_calls C w.nodes
  exact ⟨c1 ++ c2, fun σ δ A s => by
    simp only [CRC.update_Way, h1, h2, Option.bind_eq_bind, Option.some_bind,
      Option.pure_def, replay_append]⟩

theorem update_Relation_calls (C : Config) (r : Relation) :
    ∃ calls : List Call, ∀ (σ δ : Type) (A : TCRC σ δ) (s : σ),
      CRC.update_Relation C A s r = some (replay A s calls) := by
  obtain ⟨c1, h1⟩ := update_OSMObject_calls C r.toOSMObject
  obtain ⟨c2, h2⟩ := update_RelationMemberList_calls C r.members
  exact ⟨c1 ++ c2, fun σ δ A s => by
    simp only [CRC.update_Relation, h1, h2, Option.bind_eq_bind, Option.some_bind,
      replay_append]⟩

theorem update_Area_items_calls (C : Config) (items : List SubItem) :
    ∃ calls : List Call, ∀ (σ δ : Type) (A : TCRC σ δ) (s : σ),
      CRC.update_Area_items C A s items = replay A s calls := by
  induction items with
  | nil => exact ⟨[], fun _ _ _ _ => rfl⟩
  | cons it rest ih =>
    obtain ⟨c1, h1⟩ := update_NodeRefList_calls C it.nodes
    obtain ⟨c2, h2⟩ := ih
    by_cases h : it.type = C.outer_ring ∨ it.type = C.inner_ring
    · exact ⟨c1 ++ c2, fun σ δ A s => by
        simp only [CRC.update_Area_items, if_pos h, h1, h2, replay_append]⟩
    · exact ⟨c2, fun σ δ A s => by simp only [CRC.update_Area_items, if_neg h, h2]⟩

theorem update_Area_calls (C : Config) (a : Area) :
    ∃ calls : List Call, ∀ (σ δ : Type) (A : TCRC σ δ) (s : σ),
      CRC.update_Area C A s a = some (replay A s calls) := by
  obtain ⟨c1, h1⟩ := update_OSMObject_calls C a.toOSMObject
  obtain ⟨c2, h2⟩ := update_Area_items_calls C a.items
  exact ⟨c1 ++ c2, fun σ δ A s => by
    simp only [CRC.update_Area, h1, h2, Option.bind_eq_bind, Option.some_bind,
      Option.pure_def, replay_append]⟩

theorem update_Changeset_calls (C : Config) (c : Changeset) :
    ∃ calls : List Call, ∀ (σ δ : Type) (A : TCRC σ δ) (s : σ),
      CRC.update_Changeset C A s c = some (replay A s calls) := by
  obtain ⟨c1, h1⟩ := update_int64_calls C (to_unsigned 64 c.id)
  obtain ⟨c2, h2⟩ := update_Timestamp_calls C c.created_at
  obtain ⟨c3, h3⟩ := update_Timestamp_calls C c.closed_at
  obtain ⟨c4, h4⟩ := update_Box_calls C c.bounds
  obtain ⟨c5, h5⟩ := update_int32_calls C (to_unsigned 32 c.num_changes)
  obtain ⟨c6, h6⟩ := update_int32_calls C (to_unsigned 32 c.uid)
  obtain ⟨c7, h7⟩ := update_c_str_calls C c.user
  obtain ⟨c8, h8⟩ := update_TagList_calls C c.tags
  exact ⟨c1 ++ c2 ++ c3 ++ c4 ++ c5 ++ c6 ++ c7 ++ c8, fun σ δ A s => by
    simp only [CRC.update_Changeset, h1, h2, h3, h4, h5, h6, h7, h8, Option.bind_eq_bind,
      Option.some_bind, replay_append]⟩

/-- Two operations that hand the recorder different byte sequences give
different digests with every accumulator that distinguishes byte sequences. -/
theorem digests_differ {σ δ : Type} (A : TCRC σ δ) (init : σ) (hd : distinguishes A init)
    (f g : (σ δ : Type) → TCRC σ δ → σ → Option σ) (hf : feeds f) (hg : feeds g)
    (hne : (f _ _ recorder []).map absorbed ≠ (g _ _ recorder []).map absorbed) :
    (f _ _ A init).map A.checksum ≠ (g _ _ A init).map A.checksum := by
  obtain ⟨c, hc⟩ := hf
  obtain ⟨d, hd2⟩ := hg
  rw [hc, hd2, replay_recorder, replay_recorder] at hne
  rw [hc, hd2]
  intro h
  apply hne
  simp only [Option.map_some', Option.some.injEq, List.nil_append] at h ⊢
  exact hd c d h

/-! ## The encodings of the integer fields are one to one -/

theorem LE_inj (n v w : Nat) (hv : v < 256 ^ n) (hw : w < 256 ^ n)
    (h : spec.LE n v = spec.LE n w) : v = w := by
  rw [← low_bytes_first_eq_LE, ← low_bytes_first_eq_LE] at h
  have e := congrArg of_low_bytes_first h
  rwa [of_low_bytes_first_low, of_low_bytes_first_low, Nat.mod_eq_of_lt hv,
    Nat.mod_eq_of_lt hw] at e

theorem to_unsigned_inj_32 (x y : Int) (h : fits_together 32 x y)
    (e : to_unsigned 32 x = to_unsigned 32 y) : x = y := by
  simp only [fits_together, fits_signed, fits_unsigned, Nat.reduceSub] at h
  simp only [to_unsigned] at e
  omega

theorem to_unsigned_inj_64 (x y : Int) (h : fits_together 64 x y)
    (e : to_unsigned 64 x = to_unsigned 64 y) : x = y := by
  simp only [fits_together, fits_signed, fits_unsigned, Nat.reduceSub] at h
  simp only [to_unsigned] at e
  omega

theorem LE32_inj (x y : Int) (h : fits_together 32 x y) (e : spec.LE32 x = spec.LE32 y) :
    x = y :=
  to_unsigned_inj_32 x y h
    (LE_inj 4 _ _ (to_unsigned_lt 32 x) (to_unsigned_lt 32 y) e)

theorem LE64_inj (x y : Int) (h : fits_together 64 x y) (e : spec.LE64 x = spec.LE64 y) :
    x = y :=
  to_unsigned_inj_64 x y h
    (LE_inj 8 _ _ (to_unsigned_lt 64 x) (to_unsigned_lt 64 y) e)

theorem length_LE32 (x : Int) : (spec.LE32 x).length = 4 := by
  rw [spec.LE32, length_LE]

theorem length_LE64 (x : Int) : (spec.LE64 x).length = 8 := by
  rw [spec.LE64, length_LE]

theorem fits_together_of_signed (w : Nat) (x y : Int) (hx : fits_signed w x)
    (hy : fits_signed w y) : fits_together w x y :=
  Or.inl ⟨hx, hy⟩

theorem update_Node_bytes (C : Config) (n : Node) :
    (CRC.update_Node C recorder [] n).map absorbed = some (spec.node_bytes n) := by
  obtain ⟨s1, h1, a1⟩ := appends_update_OSMObject C [] n.toOSMObject
  simp only [CRC.update_Node, h1, Option.bind_eq_bind, Option.some_bind, Option.pure_def,
    Option.map_some', absorbed_update_Location, a1, absorbed, List.nil_append,
    spec.node_bytes]

theorem update_Way_bytes (C : Config) (w : Way) :
    (CRC.update_Way C recorder [] w).map absorbed = some (spec.way_bytes w) := by
  obtain ⟨s1, h1, a1⟩ := appends_update_OSMObject C [] w.toOSMObject
  simp only [CRC.update_Way, h1, Option.bind_eq_bind, Option.some_bind, Option.pure_def,
    Option.map_some', absorbed_update_NodeRefList, a1, absorbed, List.nil_append,
    spec.way_bytes]

/-- C20: update(Location) appends exactly 8 bytes, the little-endian bytes of
x mod 2^32 then of y mod 2^32, so that x = -1 gives FF FF FF FF;
update(NodeRef) appends the 8 little-endian bytes of ref mod 2^64; and for
coordinates in the signed 32-bit range and references in the signed 64-bit
range, equal appended bytes come only from equal locations and equal node
references. -/
theorem signed_fields_twos_complement (C : Config) (trace : List Call)
    (l k : Location) (r q : NodeRef)
    (hl : fits_signed 32 l.x ∧ fits_signed 32 l.y)
    (hk : fits_signed 32 k.x ∧ fits_signed 32 k.y)
    (hr : fits_signed 64 r.ref) (hq : fits_signed 64 q.ref) :
    absorbed (CRC.update_Location C recorder trace l)
      = absorbed trace
        ++ (spec.LE 4 (l.x % 2 ^ 32).toNat ++ spec.LE 4 (l.y % 2 ^ 32).toNat) ∧
    (spec.LE 4 (l.x % 2 ^ 32).toNat ++ spec.LE 4 (l.y % 2 ^ 32).toNat).length = 8 ∧
    absorbed (CRC.update_Location C recorder [] ⟨-1, l.y⟩)
      = [0xFF, 0xFF, 0xFF, 0xFF] ++ spec.LE 4 (l.y % 2 ^ 32).toNat ∧
    absorbed (CRC.update_NodeRef C recorder trace r)
      = absorbed trace ++ spec.LE 8 (r.ref % 2 ^ 64).toNat ∧
    (spec.LE 8 (r.ref % 2 ^ 64).toNat).length = 8 ∧
    (absorbed (CRC.update_Location C recorder trace l)
        = absorbed (CRC.update_Location C recorder trace k) → l = k) ∧
    (absorbed (CRC.update_NodeRef C recorder trace r)
        = absorbed (CRC.update_NodeRef C recorder trace q) → r = q) := by
  refine ⟨absorbed_update_Location C trace l, ?_, ?_, ?_, length_LE _ _, ?_, ?_⟩
  · rw [List.length_append, length_LE, length_LE]
  · have e : spec.LE32 (-1) = [0xFF, 0xFF, 0xFF, 0xFF] := by decide
    rw [absorbed_update_Location]
    show [] ++ (spec.LE32 (-1) ++ spec.LE32 l.y) = _
    rw [e]
    rfl
  · rw [CRC.update_NodeRef, absorbed_update_int64]
    rfl
  · intro h
    rw [absorbed_update_Location, absorbed_update_Location] at h
    have h2 := List.append_cancel_left h
    obtain ⟨e1, e2⟩ := List.append_inj h2 (by rw [length_LE32, length_LE32])
    have ex := LE32_inj l.x k.x (Or.inl ⟨hl.1, hk.1⟩) e1
    have ey := LE32_inj l.y k.y (Or.inl ⟨hl.2, hk.2⟩) e2
    cases l
    cases k
    simp_all
  · intro h
    rw [CRC.update_NodeRef, CRC.update_NodeRef, absorbed_update_int64,
      absorbed_update_int64] at h
    have e := LE64_inj r.ref q.ref (Or.inl ⟨hr, hq⟩) (List.append_cancel_left h)
    cases r
    cases q
    simp_all

/-- Witness of C20: the locations (-1, 20) and (10, 20) and the node
references -5 and 7 on a big-endian host with the portable swaps. -/
theorem signed_fields_twos_complement_witness :
    absorbed (CRC.update_Location Config.portable_big recorder [] ⟨-1, 20⟩)
      = absorbed []
        ++ (spec.LE 4 ((-1 : Int) % 2 ^ 32).toNat ++ spec.LE 4 ((20 : Int) % 2 ^ 32).toNat) ∧
    (spec.LE 4 ((-1 : Int) % 2 ^ 32).toNat
      ++ spec.LE 4 ((20 : Int) % 2 ^ 32).toNat).length = 8 ∧
    absorbed (CRC.update_Location Config.portable_big recorder [] ⟨-1, 20⟩)
      = [0xFF, 0xFF, 0xFF, 0xFF] ++ spec.LE 4 ((20 : Int) % 2 ^ 32).toNat ∧
    absorbed (CRC.update_NodeRef Config.portable_big recorder [] ⟨-5⟩)
      = absorbed [] ++ spec.LE 8 ((-5 : Int) % 2 ^ 64).toNat ∧
    (spec.LE 8 ((-5 : Int) % 2 ^ 64).toNat).length = 8 ∧
    (absorbed (CRC.update_Location Config.portable_big recorder [] ⟨-1, 20⟩)
        = absorbed (CRC.update_Location Config.portable_big recorder [] ⟨10, 20⟩) →
      (⟨-1, 20⟩ : Location) = ⟨10, 20⟩) ∧
    (absorbed (CRC.update_NodeRef Config.portable_big recorder [] ⟨-5⟩)
        = absorbed (CRC.update_NodeRef Config.portable_big recorder [] ⟨7⟩) →
      (⟨-5⟩ : NodeRef) = ⟨7⟩) :=
  signed_fields_twos_complement Config.portable_big [] ⟨-1, 20⟩ ⟨10, 20⟩ ⟨-5⟩ ⟨7⟩
    ⟨⟨by decide, by decide⟩, ⟨by decide, by decide⟩⟩
    ⟨⟨by decide, by decide⟩, ⟨by decide, by decide⟩⟩
    ⟨by decide, by decide⟩ ⟨by decide, by decide⟩

/-! ## Sensitivity of the stream to order and to single fields -/

/-- C14: for node references a and b, different and both values of one 64-bit
type, and any object fields, the way with nodes [a, b] and the way with nodes
[b, a] hand the accumulator different byte sequences, and with every
accumulator that distinguishes byte sequences their digests differ. -/
theorem way_node_order_changes_stream {σ δ : Type} (C : Config) (A : TCRC σ δ) (init : σ)
    (o : OSMObject) (a b : Int) (hab : a ≠ b) (hfit : fits_together 64 a b)
    (hd : distinguishes A init) :
    (CRC.update_Way C recorder [] (Way.mk o [⟨a⟩, ⟨b⟩])).map absorbed
      ≠ (CRC.update_Way C recorder [] (Way.mk o [⟨b⟩, ⟨a⟩])).map absorbed ∧
    (CRC.update_Way C A init (Way.mk o [⟨a⟩, ⟨b⟩])).map A.checksum
      ≠ (CRC.update_Way C A init (Way.mk o [⟨b⟩, ⟨a⟩])).map A.checksum := by
  have hne : (CRC.update_Way C recorder [] (Way.mk o [⟨a⟩, ⟨b⟩])).map absorbed
      ≠ (CRC.update_Way C recorder [] (Way.mk o [⟨b⟩, ⟨a⟩])).map absorbed := by
    rw [update_Way_bytes, update_Way_bytes]
    intro h
    have h1 := List.append_cancel_left (Option.some.inj h)
    simp only [spec.node_ref_bytes, List.flatMap_cons, List.flatMap_nil,
      List.append_nil] at h1
    obtain ⟨e, _⟩ := List.append_inj h1 (by rw [length_LE64, length_LE64])
    exact hab (LE64_inj a b hfit e)
  exact ⟨hne, digests_differ A init hd
    (fun _ _ A s => CRC.update_Way C A s (Way.mk o [⟨a⟩, ⟨b⟩]))
    (fun _ _ A s => CRC.update_Way C A s (Way.mk o [⟨b⟩, ⟨a⟩]))
    (update_Way_calls C _) (update_Way_calls C _) hne⟩

/-- Witness of C14: the object fields of scenario A with the node references
101 and 102, and the recorder as accumulator. -/
theorem way_node_order_changes_stream_witness :
    (CRC.update_Way Config.gcc_little recorder []
        (Way.mk scenario_A.toOSMObject [⟨101⟩, ⟨102⟩])).map absorbed
      ≠ (CRC.update_Way Config.gcc_little recorder []
        (Way.mk scenario_A.toOSMObject [⟨102⟩, ⟨101⟩])).map absorbed ∧
    (CRC.update_Way Config.gcc_little recorder []
        (Way.mk scenario_A.toOSMObject [⟨101⟩, ⟨102⟩])).map recorder.checksum
      ≠ (CRC.update_Way Config.gcc_little recorder []
        (Way.mk scenario_A.toOSMObject [⟨102⟩, ⟨101⟩])).map recorder.checksum :=
  way_node_order_changes_stream Config.gcc_little recorder [] scenario_A.toOSMObject 101 102
    (by decide) (Or.inr ⟨⟨by decide, by decide⟩, ⟨by decide, by decide⟩⟩)
    recorder_distinguishes

/-- C16: two nodes that differ only in their timestamps, different and both
values of one 32-bit type, hand the accumulator different byte sequences,
and with every accumulator that distinguishes byte sequences their digests
differ; the streams of scenario A and scenario B hold 00 and 64 (hex) at
index 13. -/
theorem node_timestamp_changes_stream {σ δ : Type} (C : Config) (A : TCRC σ δ) (init : σ)
    (n : Node) (t1 t2 : Int) (ht : t1 ≠ t2) (hfit : fits_together 32 t1 t2)
    (hd : distinguishes A init) :
    (CRC.update_Node C recorder [] { n with timestamp := ⟨t1⟩ }).map absorbed
      ≠ (CRC.update_Node C recorder [] { n with timestamp := ⟨t2⟩ }).map absorbed ∧
    (CRC.update_Node C A init { n with timestamp := ⟨t1⟩ }).map A.checksum
      ≠ (CRC.update_Node C A init { n with timestamp := ⟨t2⟩ }).map A.checksum ∧
    (CRC.update_Node C recorder [] scenario_A).map (fun s => (absorbed s)[13]?)
      = some (some 0x00) ∧
    (CRC.update_Node C recorder [] scenario_B).map (fun s => (absorbed s)[13]?)
      = some (some 0x64) := by
  have hne : (CRC.update_Node C recorder [] { n with timestamp := ⟨t1⟩ }).map absorbed
      ≠ (CRC.update_Node C recorder [] { n with timestamp := ⟨t2⟩ }).map absorbed := by
    rw [update_Node_bytes, update_Node_bytes]
    intro h
    have h1 := Option.some.inj h
    simp only [spec.node_bytes, spec.object_bytes, List.append_assoc] at h1
    have h2 := List.append_cancel_left (List.append_cancel_left (List.append_cancel_left h1))
    obtain ⟨e, _⟩ := List.append_inj h2 (by rw [length_LE32, length_LE32])
    exact ht (LE32_inj t1 t2 hfit e)
  have at13 : ∀ m : Node, (CRC.update_Node C recorder [] m).map (fun s => (absorbed s)[13]?)
      = some ((spec.node_bytes m)[13]?) := by
    intro m
    have hm := update_Node_bytes C m
    cases hu : CRC.update_Node C recorder [] m with
    | none => rw [hu] at hm; cases hm
    | some s =>
      rw [hu] at hm
      simp only [Option.map_some', Option.some.injEq] at hm ⊢
      rw [hm]
  refine ⟨hne, digests_differ A init hd
    (fun _ _ A s => CRC.update_Node C A s { n with timestamp := ⟨t1⟩ })
    (fun _ _ A s => CRC.update_Node C A s { n with timestamp := ⟨t2⟩ })
    (update_Node_calls C _) (update_Node_calls C _) hne, ?_, ?_⟩
  · rw [at13]; decide
  · rw [at13]; decide

/-- Witness of C16: scenario A with the timestamps 0 and 100, and the
recorder as accumulator. -/
theorem node_timestamp_changes_stream_witness :
    (CRC.update_Node Config.gcc_little recorder []
        { scenario_A with timestamp := ⟨0⟩ }).map absorbed
      ≠ (CRC.update_Node Config.gcc_little recorder []
        { scenario_A with timestamp := ⟨100⟩ }).map absorbed ∧
    (CRC.update_Node Config.gcc_little recorder []
        { scenario_A with timestamp := ⟨0⟩ }).map recorder.checksum
      ≠ (CRC.update_Node Config.gcc_little recorder []
        { scenario_A with timestamp := ⟨100⟩ }).map recorder.checksum ∧
    (CRC.update_Node Config.gcc_little recorder [] scenario_A).map
        (fun s => (absorbed s)[13]?) = some (some 0x00) ∧
    (CRC.update_Node Config.gcc_little recorder [] scenario_B).map
        (fun s => (absorbed s)[13]?) = some (some 0x64) :=
  node_timestamp_changes_stream Config.gcc_little recorder [] scenario_A 0 100
    (by decide) (Or.inr ⟨⟨by decide, by decide⟩, ⟨by decide, by decide⟩⟩)
    recorder_distinguishes

theorem update_Node_byte_at (C : Config) (m : Node) (i : Nat) :
    (CRC.update_Node C recorder [] m).map (fun s => (absorbed s)[i]?)
      = some ((spec.node_bytes m)[i]?) := by
  have hm := update_Node_bytes C m
  cases hu : CRC.update_Node C recorder [] m with
  | none => rw [hu] at hm; cases hm
  | some s =>
    rw [hu] at hm
    simp only [Option.map_some', Option.some.injEq] at hm ⊢
    rw [hm]

theorem update_Node_length (C : Config) (m : Node) :
    (CRC.update_Node C recorder [] m).map (fun s => (absorbed s).length)
      = some (spec.node_bytes m).length := by
  have hm := update_Node_bytes C m
  cases hu : CRC.update_Node C recorder [] m with
  | none => rw [hu] at hm; cases hm
  | some s =>
    rw [hu] at hm
    simp only [Option.map_some', Option.some.injEq] at hm ⊢
    rw [hm]

theorem getElem?_middle (P R : List Nat) (a : Nat) : (P ++ a :: R)[P.length]? = some a := by
  rw [List.getElem?_append_right (Nat.le_refl _), Nat.sub_self, List.getElem?_cons_zero]

theorem getElem?_off_middle (P R : List Nat) (a b i : Nat) (hi : i ≠ P.length) :
    (P ++ a :: R)[i]? = (P ++ b :: R)[i]? := by
  rcases Nat.lt_or_gt_of_ne hi with h | h
  · rw [List.getElem?_append_left h, List.getElem?_append_left h]
  · rw [List.getElem?_append_right (Nat.le_of_lt h),
      List.getElem?_append_right (Nat.le_of_lt h)]
    obtain ⟨j, hj⟩ : ∃ j, i - P.length = j + 1 := ⟨i - P.length - 1, by omega⟩
    rw [hj, List.getElem?_cons_succ, List.getElem?_cons_succ]

theorem node_bytes_visible (n : Node) (b : Bool) :
    spec.node_bytes { n with visible := b }
      = spec.LE64 n.id ++ (if b then 1 else 0) ::
          (spec.LE32 n.version ++ spec.LE32 n.timestamp.seconds_since_epoch
            ++ spec.LE32 n.uid ++ n.user.content ++ spec.tag_bytes n.tags
            ++ (spec.LE32 n.location.x ++ spec.LE32 n.location.y)) := by
  simp [spec.node_bytes, spec.object_bytes]

/-- C15: two nodes that differ only in the visible flag hand the accumulator
byte sequences that hold 1 and 0 at index 8, the ninth byte, and agree at
every other index; the sequences differ, and with every accumulator that
distinguishes byte sequences so do the digests. -/
theorem node_visible_changes_stream {σ δ : Type} (C : Config) (A : TCRC σ δ) (init : σ)
    (n : Node) (hd : distinguishes A init) :
    (CRC.update_Node C recorder [] { n with visible := true }).map absorbed
      ≠ (CRC.update_Node C recorder [] { n with visible := false }).map absorbed ∧
    (CRC.update_Node C A init { n with visible := true }).map A.checksum
      ≠ (CRC.update_Node C A init { n with visible := false }).map A.checksum ∧
    (CRC.update_Node C recorder [] { n with visible := true }).map
        (fun s => (absorbed s)[8]?) = some (some 1) ∧
    (CRC.update_Node C recorder [] { n with visible := false }).map
        (fun s => (absorbed s)[8]?) = some (some 0) ∧
    (∀ i, i ≠ 8 →
      (CRC.update_Node C recorder [] { n with visible := true }).map
          (fun s => (absorbed s)[i]?)
        = (CRC.update_Node C recorder [] { n with visible := false }).map
          (fun s => (absorbed s)[i]?)) := by
  have h1 : (CRC.update_Node C recorder [] { n with visible := true }).map
      (fun s => (absorbed s)[8]?) = some (some 1) := by
    rw [update_Node_byte_at, node_bytes_visible, ← length_LE64 n.id, getElem?_middle]
    rfl
  have h0 : (CRC.update_Node C recorder [] { n with visible := false }).map
      (fun s => (absorbed s)[8]?) = some (some 0) := by
    rw [update_Node_byte_at, node_bytes_visible, ← length_LE64 n.id, getElem?_middle]
    rfl
  have hne : (CRC.update_Node C recorder [] { n with visible := true }).map absorbed
      ≠ (CRC.update_Node C recorder [] { n with visible := false }).map absorbed := by
    intro h
    rw [update_Node_byte_at] at h1 h0
    rw [update_Node_bytes, update_Node_bytes] at h
    rw [Option.some.inj h, h0] at h1
    cases h1
  refine ⟨hne, digests_differ A init hd
    (fun _ _ A s => CRC.update_Node C A s { n with visible := true })
    (fun _ _ A s => CRC.update_Node C A s { n with visible := false })
    (update_Node_calls C _) (update_Node_calls C _) hne, h1, h0, ?_⟩
  intro i hi
  rw [update_Node_byte_at, update_Node_byte_at, node_bytes_visible, node_bytes_visible]
  exact congrArg some (getElem?_off_middle _ _ _ _ i (by rw [length_LE64]; exact hi))

/-- Witness of C15: scenario A, visible and not visible, with the recorder as
accumulator. -/
theorem node_visible_changes_stream_witness :
    (CRC.update_Node Config.gcc_little recorder []
        { scenario_A with visible := true }).map absorbed
      ≠ (CRC.update_Node Config.gcc_little recorder []
        { scenario_A with visible := false }).map absorbed ∧
    (CRC.update_Node Config.gcc_little recorder []
        { scenario_A with visible := true }).map recorder.checksum
      ≠ (CRC.update_Node Config.gcc_little recorder []
        { scenario_A with visible := false }).map recorder.checksum ∧
    (CRC.update_Node Config.gcc_little recorder [] { scenario_A with visible := true }).map
        (fun s => (absorbed s)[8]?) = some (some 1) ∧
    (CRC.update_Node Config.gcc_little recorder [] { scenario_A with visible := false }).map
        (fun s => (absorbed s)[8]?) = some (some 0) ∧
    (∀ i, i ≠ 8 →
      (CRC.update_Node Config.gcc_little recorder []
          { scenario_A with visible := true }).map (fun s => (absorbed s)[i]?)
        = (CRC.update_Node Config.gcc_little recorder []
          { scenario_A with visible := false }).map (fun s => (absorbed s)[i]?)) :=
  node_visible_changes_stream Config.gcc_little recorder [] scenario_A
    recorder_distinguishes

theorem tag_bytes_append (front back : TagList) :
    spec.tag_bytes (front ++ back) = spec.tag_bytes front ++ spec.tag_bytes back := by
  simp [spec.tag_bytes]

theorem length_node_bytes_insert_tag (n : Node) (front back : TagList) (t : Tag) :
    (spec.node_bytes { n with tags := front ++ t :: back }).length
      = (spec.node_bytes { n with tags := front ++ back }).length
        + t.key.content.length + t.value.content.length := by
  have e : spec.tag_bytes (t :: back)
      = t.key.content ++ t.value.content ++ spec.tag_bytes back := by
    simp [spec.tag_bytes]
  simp only [spec.node_bytes, spec.object_bytes, tag_bytes_append, e, List.length_append]
  omega

/-- C17, as amended: for every node and every tag of which the key or the
value is not empty, inserting the tag anywhere in the tag list makes the byte
sequence handed to the accumulator longer by |key| + |value| bytes, hence
different, and with every accumulator that distinguishes byte sequences the
digests differ; the stream of scenario C is that of scenario A with 61 62
(hex) inserted before the location bytes. -/
theorem node_added_tag_changes_stream {σ δ : Type} (C : Config) (A : TCRC σ δ) (init : σ)
    (n : Node) (front back : TagList) (t : Tag)
    (ht : t.key.content ≠ [] ∨ t.value.content ≠ []) (hd : distinguishes A init) :
    (CRC.update_Node C recorder [] { n with tags := front ++ t :: back }).map
        (fun s => (absorbed s).length)
      = (CRC.update_Node C recorder [] { n with tags := front ++ back }).map
        (fun s => (absorbed s).length + t.key.content.length + t.value.content.length) ∧
    (CRC.update_Node C recorder [] { n with tags := front ++ t :: back }).map absorbed
      ≠ (CRC.update_Node C recorder [] { n with tags := front ++ back }).map absorbed ∧
    (CRC.update_Node C A init { n with tags := front ++ t :: back }).map A.checksum
      ≠ (CRC.update_Node C A init { n with tags := front ++ back }).map A.checksum ∧
    (CRC.update_Node C recorder [] scenario_A).map absorbed
      = some [0x01, 0x00, 0x00, 0x00, 0x00, 0x00, 0x00, 0x00, 0x01, 0x01, 0x00, 0x00, 0x00,
          0x00, 0x00, 0x00, 0x00, 0x00, 0x00, 0x00, 0x00,
          0x0A, 0x00, 0x00, 0x00, 0x14, 0x00, 0x00, 0x00] ∧
    (CRC.update_Node C recorder [] scenario_C).map absorbed
      = some [0x01, 0x00, 0x00, 0x00, 0x00, 0x00, 0x00, 0x00, 0x01, 0x01, 0x00, 0x00, 0x00,
          0x00, 0x00, 0x00, 0x00, 0x00, 0x00, 0x00, 0x00, 0x61, 0x62,
          0x0A, 0x00, 0x00, 0x00, 0x14, 0x00, 0x00, 0x00] := by
  have hlen := length_node_bytes_insert_tag n front back t
  have hpos : 0 < t.key.content.length + t.value.content.length := by
    rcases ht with h | h
    · have := List.length_pos.mpr h
      omega
    · have := List.length_pos.mpr h
      omega
  have hne : (CRC.update_Node C recorder [] { n with tags := front ++ t :: back }).map absorbed
      ≠ (CRC.update_Node C recorder [] { n with tags := front ++ back }).map absorbed := by
    rw [update_Node_bytes, update_Node_bytes]
    intro h
    rw [Option.some.inj h] at hlen
    omega
  refine ⟨?_, hne, digests_differ A init hd
    (fun _ _ A s => CRC.update_Node C A s { n with tags := front ++ t :: back })
    (fun _ _ A s => CRC.update_Node C A s { n with tags := front ++ back })
    (update_Node_calls C _) (update_Node_calls C _) hne, ?_, ?_⟩
  · have h2 := update_Node_bytes C { n with tags := front ++ back }
    cases hu : CRC.update_Node C recorder [] { n with tags := front ++ back } with
    | none => rw [hu] at h2; cases h2
    | some s =>
      rw [hu] at h2
      simp only [Option.map_some', Option.some.injEq] at h2
      rw [update_Node_length, Option.map_some', h2, hlen]
  · rw [update_Node_bytes]; decide
  · rw [update_Node_bytes]; decide

/-- Witness of C17 as amended: scenario A and the tag ("a", "b"), with the
recorder as accumulator. -/
theorem node_added_tag_changes_stream_witness :
    (CRC.update_Node Config.gcc_little recorder []
        { scenario_A with tags := [] ++ ⟨c_string.a, c_string.b⟩ :: [] }).map
        (fun s => (absorbed s).length)
      = (CRC.update_Node Config.gcc_little recorder []
          { scenario_A with tags := [] ++ [] }).map
        (fun s => (absorbed s).length + c_string.a.content.length
          + c_string.b.content.length) ∧
    (CRC.update_Node Config.gcc_little recorder []
        { scenario_A with tags := [] ++ ⟨c_string.a, c_string.b⟩ :: [] }).map absorbed
      ≠ (CRC.update_Node Config.gcc_little recorder []
        { scenario_A with tags := [] ++ [] }).map absorbed ∧
    (CRC.update_Node Config.gcc_little recorder []
        { scenario_A with tags := [] ++ ⟨c_string.a, c_string.b⟩ :: [] }).map
        recorder.checksum
      ≠ (CRC.update_Node Config.gcc_little recorder []
        { scenario_A with tags := [] ++ [] }).map recorder.checksum ∧
    (CRC.update_Node Config.gcc_little recorder [] scenario_A).map absorbed
      = some [0x01, 0x00, 0x00, 0x00, 0x00, 0x00, 0x00, 0x00, 0x01, 0x01, 0x00, 0x00, 0x00,
          0x00, 0x00, 0x00, 0x00, 0x00, 0x00, 0x00, 0x00,
          0x0A, 0x00, 0x00, 0x00, 0x14, 0x00, 0x00, 0x00] ∧
    (CRC.update_Node Config.gcc_little recorder [] scenario_C).map absorbed
      = some [0x01, 0x00, 0x00, 0x00, 0x00, 0x00, 0x00, 0x00, 0x01, 0x01, 0x00, 0x00, 0x00,
          0x00, 0x00, 0x00, 0x00, 0x00, 0x00, 0x00, 0x00, 0x61, 0x62,
          0x0A, 0x00, 0x00, 0x00, 0x14, 0x00, 0x00, 0x00] :=
  node_added_tag_changes_stream Config.gcc_little recorder [] scenario_A [] []
    ⟨c_string.a, c_string.b⟩ (Or.inl (by decide)) recorder_distinguishes

/-- Counterexample to C17 as stated: adding the tag ("", "") to the node of
scenario A leaves the byte sequence handed to the accumulator unchanged. -/
theorem node_added_empty_tag_same_stream :
    scenario_A_empty_tag.tags = ⟨c_string.empty, c_string.empty⟩ :: scenario_A.tags ∧
    scenario_A_empty_tag.tags.length = scenario_A.tags.length + 1 ∧
    (CRC.update_Node Config.gcc_little recorder [] scenario_A_empty_tag).map absorbed
      = (CRC.update_Node Config.gcc_little recorder [] scenario_A).map absorbed := by
  refine ⟨rfl, rfl, ?_⟩
  decide

/-! ## What the stream of a node determines -/

theorem bool_byte_inj (a b : Bool) (h : (if a then 1 else 0 : Nat) = (if b then 1 else 0)) :
    a = b := by
  cases a <;> cases b <;> simp_all

/-- C12, as amended: for two nodes whose integer fields are, field by field,
values of one integer type, equal byte sequences handed to the accumulator
give equal id, visible flag, version, timestamp, uid and location, and equal
concatenations of the bytes of user, keys and values; the user string and the
tag list themselves are not determined. -/
theorem node_stream_determines_fixed_fields (C : Config) (n m : Node)
    (hid : fits_together 64 n.id m.id)
    (hversion : fits_together 32 n.version m.version)
    (htime : fits_together 32 n.timestamp.seconds_since_epoch
      m.timestamp.seconds_since_epoch)
    (huid : fits_together 32 n.uid m.uid)
    (hx : fits_together 32 n.location.x m.location.x)
    (hy : fits_together 32 n.location.y m.location.y)
    (h : (CRC.update_Node C recorder [] n).map absorbed
      = (CRC.update_Node C recorder [] m).map absorbed) :
    n.id = m.id ∧ n.visible = m.visible ∧ n.version = m.version ∧
    n.timestamp = m.timestamp ∧ n.uid = m.uid ∧ n.location = m.location ∧
    n.user.content ++ (n.tags.flatMap fun t => t.key.content ++ t.value.content)
      = m.user.content ++ (m.tags.flatMap fun t => t.key.content ++ t.value.content) := by
  rw [update_Node_bytes, update_Node_bytes] at h
  have h1 := Option.some.inj h
  simp only [spec.node_bytes, spec.object_bytes, spec.tag_bytes, List.append_assoc] at h1
  obtain ⟨e1, h2⟩ := List.append_inj h1 (by rw [length_LE64, length_LE64])
  obtain ⟨e2, h3⟩ := List.append_inj h2 rfl
  obtain ⟨e3, h4⟩ := List.append_inj h3 (by rw [length_LE32, length_LE32])
  obtain ⟨e4, h5⟩ := List.append_inj h4 (by rw [length_LE32, length_LE32])
  obtain ⟨e5, h6⟩ := List.append_inj h5 (by rw [length_LE32, length_LE32])
  have h6b : (n.user.content ++ (n.tags.flatMap fun t => t.key.content ++ t.value.content))
        ++ (spec.LE32 n.location.x ++ spec.LE32 n.location.y)
      = (m.user.content ++ (m.tags.flatMap fun t => t.key.content ++ t.value.content))
        ++ (spec.LE32 m.location.x ++ spec.LE32 m.location.y) := by
    simpa only [List.append_assoc] using h6
  obtain ⟨e6, h7⟩ := List.append_inj' h6b (by
    simp only [List.length_append, length_LE32])
  obtain ⟨e9, e10⟩ := List.append_inj h7 (by rw [length_LE32, length_LE32])
  have ex := LE32_inj _ _ hx e9
  have ey := LE32_inj _ _ hy e10
  have et := LE32_inj _ _ htime e4
  refine ⟨LE64_inj _ _ hid e1, bool_byte_inj _ _ (List.cons.inj e2).1,
    LE32_inj _ _ hversion e3, ?_, LE32_inj _ _ huid e5, ?_, ?_⟩
  · cases hn : n.timestamp
    cases hm : m.timestamp
    rw [hn, hm] at et
    simp_all
  · cases hn : n.location
    cases hm : m.location
    rw [hn, hm] at ex ey
    simp_all
  · exact e6

/-- Witness of C12 as amended: scenario C and the node with the one tag
("ab", ""), whose streams are equal. -/
theorem node_stream_determines_fixed_fields_witness :
    scenario_C.id = scenario_C_merged.id ∧ scenario_C.visible = scenario_C_merged.visible ∧
    scenario_C.version = scenario_C_merged.version ∧
    scenario_C.timestamp = scenario_C_merged.timestamp ∧
    scenario_C.uid = scenario_C_merged.uid ∧
    scenario_C.location = scenario_C_merged.location ∧
    scenario_C.user.content
        ++ (scenario_C.tags.flatMap fun t => t.key.content ++ t.value.content)
      = scenario_C_merged.user.content
        ++ (scenario_C_merged.tags.flatMap fun t => t.key.content ++ t.value.content) :=
  node_stream_determines_fixed_fields Config.gcc_little scenario_C scenario_C_merged
    (Or.inl ⟨⟨by decide, by decide⟩, ⟨by decide, by decide⟩⟩)
    (Or.inl ⟨⟨by decide, by decide⟩, ⟨by decide, by decide⟩⟩)
    (Or.inl ⟨⟨by decide, by decide⟩, ⟨by decide, by decide⟩⟩)
    (Or.inl ⟨⟨by decide, by decide⟩, ⟨by decide, by decide⟩⟩)
    (Or.inl ⟨⟨by decide, by decide⟩, ⟨by decide, by decide⟩⟩)
    (Or.inl ⟨⟨by decide, by decide⟩, ⟨by decide, by decide⟩⟩)
    (by decide)

/-- Counterexample to C12 as stated: the node of scenario C, with the tag
("a", "b"), and the node with the tag ("ab", "") instead hand the accumulator
the same byte sequence, and their tag lists differ. -/
theorem node_stream_not_injective :
    (CRC.update_Node Config.gcc_little recorder [] scenario_C).map absorbed
      = (CRC.update_Node Config.gcc_little recorder [] scenario_C_merged).map absorbed ∧
    scenario_C.tags ≠ scenario_C_merged.tags ∧
    scenario_C.tags.map (fun t => (t.key.content, t.value.content)) = [([0x61], [0x62])] ∧
    scenario_C_merged.tags.map (fun t => (t.key.content, t.value.content))
      = [([0x61, 0x62], [])] := by
  refine ⟨by decide, ?_, rfl, rfl⟩
  intro h
  have e := congrArg (List.map fun t => t.key.content.length) h
  revert e
  decide

/-! ## Empty collections -/

theorem update_Area_items_no_ring {σ δ : Type} (C : Config) (A : TCRC σ δ) (m_crc : σ)
    (items : List SubItem)
    (h : ∀ it ∈ items, it.type ≠ C.outer_ring ∧ it.type ≠ C.inner_ring) :
    CRC.update_Area_items C A m_crc items = m_crc := by
  induction items with
  | nil => rfl
  | cons it rest ih =>
    have hit := h it (List.mem_cons_self _ _)
    rw [CRC.update_Area_items,
      if_neg (by rintro (e | e); exacts [hit.1 e, hit.2 e]),
      ih fun x hx => h x (List.mem_cons_of_mem _ hx)]

/-- C13: in every state of every accumulator, update of an empty TagList, of
an empty NodeRefList, of an empty RelationMemberList, and the loop of
update(Area) over sub-items none of which is a ring, leave the state as it
is, and on the recorder add no call; the stream of a node with no tags is
LE64(id), the visible byte, LE32(version), LE32(timestamp), LE32(uid), the
bytes of user, LE32(x), LE32(y). -/
theorem empty_collections_absorb_nothing {σ δ : Type} (C : Config) (A : TCRC σ δ)
    (m_crc : σ) (trace : List Call) (n : Node) (items : List SubItem)
    (h : ∀ it ∈ items, it.type ≠ C.outer_ring ∧ it.type ≠ C.inner_ring) :
    CRC.update_TagList C A m_crc [] = some m_crc ∧
    CRC.update_NodeRefList C A m_crc [] = m_crc ∧
    CRC.update_RelationMemberList C A m_crc [] = some m_crc ∧
    CRC.update_Area_items C A m_crc items = m_crc ∧
    CRC.update_Area_items C A m_crc [] = m_crc ∧
    CRC.update_TagList C recorder trace [] = some trace ∧
    CRC.update_NodeRefList C recorder trace [] = trace ∧
    CRC.update_RelationMemberList C recorder trace [] = some trace ∧
    CRC.update_Area_items C recorder trace items = trace ∧
    (CRC.update_Node C recorder trace { n with tags := [] }).map absorbed
      = some (absorbed trace ++
          (spec.LE64 n.id ++ [if n.visible then 1 else 0] ++ spec.LE32 n.version
            ++ spec.LE32 n.timestamp.seconds_since_epoch ++ spec.LE32 n.uid
            ++ n.user.content ++ spec.LE32 n.location.x ++ spec.LE32 n.location.y)) := by
  refine ⟨rfl, rfl, rfl, update_Area_items_no_ring C A m_crc items h, rfl, rfl, rfl, rfl,
    update_Area_items_no_ring C recorder trace items h, ?_⟩
  obtain ⟨s1, h1, a1⟩ := appends_update_OSMObject C trace { n with tags := [] }.toOSMObject
  simp only [CRC.update_Node, h1, Option.bind_eq_bind, Option.some_bind, Option.pure_def,
    Option.map_some', absorbed_update_Location, a1, spec.object_bytes, spec.tag_bytes,
    List.flatMap_nil, List.append_nil, List.append_assoc]

/-- Witness of C13: the sub-items of an area that holds one sub-item of
another type and no ring, and the node of scenario C. -/
theorem empty_collections_absorb_nothing_witness :
    CRC.update_TagList Config.gcc_little recorder [] [] = some [] ∧
    CRC.update_NodeRefList Config.gcc_little recorder [] [] = [] ∧
    CRC.update_RelationMemberList Config.gcc_little recorder [] [] = some [] ∧
    CRC.update_Area_items Config.gcc_little recorder [] [other_item] = [] ∧
    CRC.update_Area_items Config.gcc_little recorder [] [] = [] ∧
    CRC.update_TagList Config.gcc_little recorder [] [] = some [] ∧
    CRC.update_NodeRefList Config.gcc_little recorder [] [] = [] ∧
    CRC.update_RelationMemberList Config.gcc_little recorder [] [] = some [] ∧
    CRC.update_Area_items Config.gcc_little recorder [] [other_item] = [] ∧
    (CRC.update_Node Config.gcc_little recorder [] { scenario_C with tags := [] }).map
        absorbed
      = some (absorbed [] ++
          (spec.LE64 scenario_C.id ++ [if scenario_C.visible then 1 else 0]
            ++ spec.LE32 scenario_C.version
            ++ spec.LE32 scenario_C.timestamp.seconds_since_epoch
            ++ spec.LE32 scenario_C.uid ++ scenario_C.user.content
            ++ spec.LE32 scenario_C.location.x ++ spec.LE32 scenario_C.location.y)) :=
  empty_collections_absorb_nothing Config.gcc_little recorder [] [] scenario_C [other_item]
    (by decide)

/-! ## The accumulator is only appended to -/

/-- C18: every operation of the adapter returns, and its whole effect on any
accumulator in any state is to feed it one sequence of calls that depends on
the argument only; on the recorder the calls made before are kept and the
new ones are added after them, so the bytes absorbed after the call are those
absorbed before followed by the bytes of the new calls. -/
theorem accumulator_only_appended (C : Config) :
    (∀ b : Bool, feeds fun _ _ A s => some (CRC.update_bool A s b)) ∧
    (∀ v : Nat, feeds fun _ _ A s => some (CRC.update_int8 A s v)) ∧
    (∀ v : Nat, feeds fun _ _ A s => some (CRC.update_int16 C A s v)) ∧
    (∀ v : Nat, feeds fun _ _ A s => some (CRC.update_int32 C A s v)) ∧
    (∀ v : Nat, feeds fun _ _ A s => some (CRC.update_int64 C A s v)) ∧
    (∀ (str : c_string) (rest : List Nat),
      feeds fun _ _ A s => CRC.update_string C A s (str.content ++ 0 :: rest)) ∧
    (∀ t : Timestamp, feeds fun _ _ A s => some (CRC.update_Timestamp C A s t)) ∧
    (∀ l : Location, feeds fun _ _ A s => some (CRC.update_Location C A s l)) ∧
    (∀ b : Box, feeds fun _ _ A s => some (CRC.update_Box C A s b)) ∧
    (∀ r : NodeRef, feeds fun _ _ A s => some (CRC.update_NodeRef C A s r)) ∧
    (∀ rs : NodeRefList, feeds fun _ _ A s => some (CRC.update_NodeRefList C A s rs)) ∧
    (∀ ts : TagList, feeds fun _ _ A s => CRC.update_TagList C A s ts) ∧
    (∀ m : RelationMember, feeds fun _ _ A s => CRC.update_RelationMember C A s m) ∧
    (∀ ms : RelationMemberList,
      feeds fun _ _ A s => CRC.update_RelationMemberList C A s ms) ∧
    (∀ o : OSMObject, feeds fun _ _ A s => CRC.update_OSMObject C A s o) ∧
    (∀ n : Node, feeds fun _ _ A s => CRC.update_Node C A s n) ∧
    (∀ w : Way, feeds fun _ _ A s => CRC.update_Way C A s w) ∧
    (∀ r : Relation, feeds fun _ _ A s => CRC.update_Relation C A s r) ∧
    (∀ a : Area, feeds fun _ _ A s => CRC.update_Area C A s a) ∧
    (∀ c : Changeset, feeds fun _ _ A s => CRC.update_Changeset C A s c) ∧
    (∀ s calls : List Call, replay recorder s calls = s ++ calls ∧
      absorbed (replay recorder s calls) = absorbed s ++ absorbed calls) := by
  have plain : ∀ f : (σ δ : Type) → TCRC σ δ → σ → σ,
      (∃ calls : List Call, ∀ (σ δ : Type) (A : TCRC σ δ) (s : σ),
        f σ δ A s = replay A s calls) →
      feeds fun σ δ A s => some (f σ δ A s) := by
    rintro f ⟨calls, hc⟩
    exact ⟨calls, fun σ δ A s => congrArg some (hc σ δ A s)⟩
  refine ⟨fun b => plain _ (update_bool_calls b), fun v => plain _ (update_int8_calls v),
    fun v => plain _ (update_int16_calls C v), fun v => plain _ (update_int32_calls C v),
    fun v => plain _ (update_int64_calls C v),
    fun str rest => update_string_calls C str.content rest str.valid,
    fun t => plain _ (update_Timestamp_calls C t),
    fun l => plain _ (update_Location_calls C l), fun b => plain _ (update_Box_calls C b),
    fun r => plain _ (update_NodeRef_calls C r),
    fun rs => plain _ (update_NodeRefList_calls C rs), update_TagList_calls C,
    update_RelationMember_calls C, update_RelationMemberList_calls C,
    update_OSMObject_calls C, update_Node_calls C, update_Way_calls C,
    update_Relation_calls C, update_Area_calls C, update_Changeset_calls C, ?_⟩
  intro s calls
  rw [replay_recorder, absorbed_append]
  exact ⟨rfl, rfl⟩

end osmium
